import Mathlib

/-!
Shallow embedding of `src/buffer_pool.rs` from the `wayland-thing` repository.

The embedding models the buffer-pool subsystem as a state machine:

* a `Buffer` merges the remote `WlBuffer` object with its `BufferHandle`
  user data (`offset`, `loaned` flag, weak reference to the owning free
  list via `poolId`) plus a `destroyed` flag recording that
  `WlBuffer::destroy` was called on the remote object;
* a `Pool` merges the `BufferPool` struct (fixed `width`/`height`, the
  shared-memory `mapping` length, the `WlShmPool` remote object) with the
  `AvailableBufferPool` free list it owns through an
  `Arc<Mutex<AvailableBufferPool>>`.  The `live` flag records whether that
  `Arc` is still allocated: the pool holds the only strong reference, the
  buffer handles hold `Weak` references, so the allocation dies exactly
  when the pool is dropped and `Weak::upgrade` fails afterwards;
* a `World` is the collection of all pools and buffers ever created,
  indexed by position (destroyed objects stay as tombstones so that
  identities are stable).

Machine integers: `width` and `height` are `u32`, so the multiplication
`width * height` in `buffer_size` wraps modulo `2 ^ 32`; byte offsets and
lengths are `usize` and modelled as `Nat` (pool sizes near `2 ^ 64` are not
representable in the protocol anyway, the `i32` casts overflow far
earlier).
-/

namespace WaylandThing

/-- `fn buffer_size(width: u32, height: u32) -> usize`:
`(width * height) as usize * mem::size_of::<u32>()`, where `width * height`
is `u32` arithmetic and hence wraps modulo `2 ^ 32`. -/
def buffer_size (width height : Nat) : Nat :=
  width * height % 2 ^ 32 * 4

/-- One remote `WlBuffer` together with its `BufferHandle` user data.
`poolId` is the target of the handle's `Weak<Mutex<AvailableBufferPool>>`;
`destroyed` records that `WlBuffer::destroy` was called. -/
structure Buffer where
  offset : Nat
  poolId : Nat
  loaned : Bool
  destroyed : Bool
deriving DecidableEq

/-- One `BufferPool` together with the `AvailableBufferPool` free list it
strongly owns.  `freeList` holds `(buffer id, offset)` pairs in `Vec`
order: `Vec::push` appends at the end, `Vec::pop` removes from the end.
`live` is whether the `Arc` holding the free list is still allocated
(false once the pool was dropped); `shmDestroyed` is whether
`WlShmPool::destroy` was called on the remote pool object. -/
structure Pool where
  width : Nat
  height : Nat
  mappingLen : Nat
  freeList : List (Nat × Nat)
  live : Bool
  shmDestroyed : Bool
deriving DecidableEq

/-- All pools and buffers ever created, indexed by id. -/
structure World where
  pools : List Pool
  buffers : List Buffer
deriving DecidableEq

/-- The empty initial world: no pool or buffer created yet. -/
def World.init : World := ⟨[], []⟩

/-- `BufferPool::new`: creates a fresh `memfd` whose mapping has length 0
(the advertised `initial_size` passed to `create_pool` is a lie about the
remote mirror only and never becomes mapping state), and an empty free
list.  Returns the new world and the fresh pool id. -/
def newPool (s : World) (width height : Nat) : World × Nat :=
  (⟨s.pools ++
      [{ width := width, height := height, mappingLen := 0, freeList := [],
         live := true, shmDestroyed := false }],
    s.buffers⟩,
   s.pools.length)

/-- `BufferPool::get_buffer`.  Mirrors the source: if
`available_buffers.pop()` yields `Some((buffer, offset))` (the `Vec` pops
from the back), store `true` into the handle's `loaned` flag and return the
buffer with a slice at `offset`; otherwise grow the mapping by
`buffer_size(width, height)`, create a fresh buffer whose handle has
`offset = old_size`, `loaned = true` and a weak reference to this pool's
free list, and return it.  Returns `(new world, buffer id, offset)`;
`none` models calls that cannot happen (pool not allocated, or a free-list
entry whose `buffer.data::<BufferHandle>()` is missing). -/
def get_buffer (s : World) (pid : Nat) : Option (World × Nat × Nat) :=
  match s.pools[pid]? with
  | none => none
  | some p =>
    if p.live then
      match p.freeList.getLast? with
      | some e =>
        match s.buffers[e.1]? with
        | none => none
        | some b =>
          some (⟨s.pools.set pid { p with freeList := p.freeList.dropLast },
                 s.buffers.set e.1 { b with loaned := true }⟩,
                e.1, e.2)
      | none =>
        some (⟨s.pools.set pid
                 { p with mappingLen := p.mappingLen + buffer_size p.width p.height },
               s.buffers ++
                 [{ offset := p.mappingLen, poolId := pid, loaned := true,
                    destroyed := false }]⟩,
              s.buffers.length, p.mappingLen)
    else none

/-- `BufferHandle::release`: swap the `loaned` flag to `false`; if the old
value was `false` the `assert!` aborts the process (modelled as `none`).
Then try to upgrade the weak reference to the free list: on success push
`(buffer, offset)` to its back, otherwise destroy the remote buffer. -/
def release (s : World) (bid : Nat) : Option World :=
  match s.buffers[bid]? with
  | none => none
  | some b =>
    if b.loaned then
      match s.pools[b.poolId]? with
      | none => none
      | some p =>
        if p.live then
          some ⟨s.pools.set b.poolId
                  { p with freeList := p.freeList ++ [(bid, b.offset)] },
                s.buffers.set bid { b with loaned := false }⟩
        else
          some ⟨s.pools,
                s.buffers.set bid { b with loaned := false, destroyed := true }⟩
    else none

/-- `AvailableBufferPool::drop`: call `WlBuffer::destroy` on every buffer
referenced by the free list. -/
def destroyFreeBuffers (buffers : List Buffer) (entries : List (Nat × Nat)) :
    List Buffer :=
  entries.foldl
    (fun bs e =>
      match bs[e.1]? with
      | some b => bs.set e.1 { b with destroyed := true }
      | none => bs)
    buffers

/-- Dropping a `BufferPool`: `Drop for BufferPool` destroys the remote
`WlShmPool`; then the field drops release the only strong reference to the
`AvailableBufferPool`, so `Drop for AvailableBufferPool` destroys every
still-free buffer and the free list's allocation dies (`live := false`,
subsequent `Weak::upgrade` calls fail). -/
def destroyPool (s : World) (pid : Nat) : Option World :=
  match s.pools[pid]? with
  | none => none
  | some p =>
    if p.live then
      some ⟨s.pools.set pid
              { p with live := false, freeList := [], shmDestroyed := true },
            destroyFreeBuffers s.buffers p.freeList⟩
    else none

/-- The operations a client of the subsystem can perform: create a pool,
request a buffer, deliver a compositor release event, drop a pool. -/
inductive Op where
  | newPool (width height : Nat)
  | getBuffer (pid : Nat)
  | releaseBuffer (bid : Nat)
  | destroyPool (pid : Nat)
deriving DecidableEq

/-- One step of the state machine; `none` is an impossible call or an
aborted (panicking) one. -/
def step (s : World) : Op → Option World
  | .newPool w h => some (newPool s w h).1
  | .getBuffer pid => (get_buffer s pid).map (·.1)
  | .releaseBuffer bid => release s bid
  | .destroyPool pid => destroyPool s pid

/-- Run a sequence of operations; the whole run fails if any step does. -/
def run (s : World) : List Op → Option World
  | [] => some s
  | op :: ops =>
    match step s op with
    | some s' => run s' ops
    | none => none

/-- A world is reachable if some operation sequence produces it from the
empty initial world. -/
def Reachable (s : World) : Prop :=
  ∃ ops, run World.init ops = some s

/-- Number of slots ever created for pool `pid` (slots are never removed,
so this is also the current slot count). -/
def slotCount (s : World) (pid : Nat) : Nat :=
  s.buffers.countP (fun b => b.poolId == pid)

section Lemmas

/-- Looking up after `List.set` at an index known to be in bounds. -/
theorem getElem?_set_of_get {α : Type _} {l : List α} {i : Nat} {a : α} (b : α)
    (h : l[i]? = some a) (j : Nat) :
    (l.set i b)[j]? = if i = j then some b else l[j]? := by
  have hi : i < l.length := (List.getElem?_eq_some_iff.mp h).1
  rw [List.getElem?_set, if_pos hi]

/-- `countP` is unchanged by a `set` that preserves the predicate value. -/
theorem countP_set_same {α : Type _} {l : List α} {i : Nat} {a b : α} (p : α → Bool)
    (h : l[i]? = some a) (hp : p a = p b) : (l.set i b).countP p = l.countP p := by
  obtain ⟨hi, hget⟩ := List.getElem?_eq_some_iff.mp h
  rw [List.countP_set _ _ _ _ hi, hget, ← hp]
  by_cases hb : p a = true
  · have hpos : 0 < l.countP p :=
      List.countP_pos_iff.mpr ⟨a, hget ▸ List.getElem_mem hi, hb⟩
    rw [if_pos hb]
    omega
  · rw [if_neg hb]
    omega

/-- Characterization of a successful `get_buffer` call: either an entry was
popped from the back of the free list, or the pool grew by one buffer. -/
theorem get_buffer_inv {s s' : World} {pid bid off : Nat}
    (h : get_buffer s pid = some (s', bid, off)) :
    ∃ p, s.pools[pid]? = some p ∧ p.live = true ∧
      ((∃ l b, p.freeList = l ++ [(bid, off)] ∧ s.buffers[bid]? = some b ∧
          s' = ⟨s.pools.set pid { p with freeList := l },
                s.buffers.set bid { b with loaned := true }⟩) ∨
       (p.freeList = [] ∧ bid = s.buffers.length ∧ off = p.mappingLen ∧
          s' = ⟨s.pools.set pid
                  { p with mappingLen := p.mappingLen + buffer_size p.width p.height },
                s.buffers ++ [{ offset := p.mappingLen, poolId := pid,
                                loaned := true, destroyed := false }]⟩)) := by
  unfold get_buffer at h
  split at h
  · exact absurd h (by simp)
  · rename_i p hp
    split at h
    · rename_i hl
      split at h
      · rename_i e hfl
        split at h
        · exact absurd h (by simp)
        · rename_i b hb
          simp only [Option.some.injEq, Prod.mk.injEq] at h
          obtain ⟨hs, hbid, hoff⟩ := h
          obtain ⟨l, hfl'⟩ := List.getLast?_eq_some_iff.mp hfl
          have he : e = (bid, off) := Prod.ext hbid hoff
          refine ⟨p, hp, hl, Or.inl ⟨l, b, ?_, ?_, ?_⟩⟩
          · rw [← he]; exact hfl'
          · rw [← hbid]; exact hb
          · rw [← hs, hfl', List.dropLast_concat, hbid]
      · rename_i hfl
        simp only [Option.some.injEq, Prod.mk.injEq] at h
        obtain ⟨hs, hbid, hoff⟩ := h
        exact ⟨p, hp, hl, Or.inr ⟨List.getLast?_eq_none_iff.mp hfl, hbid.symm,
          hoff.symm, hs.symm⟩⟩
    · exact absurd h (by simp)

/-- Characterization of a successful (non-aborting) `release` call: either
the weak reference upgraded and the buffer was pushed to the free list, or
the pool was dead and the remote buffer was destroyed. -/
theorem release_inv {s s' : World} {bid : Nat} (h : release s bid = some s') :
    ∃ b p, s.buffers[bid]? = some b ∧ b.loaned = true ∧
      s.pools[b.poolId]? = some p ∧
      ((p.live = true ∧
         s' = ⟨s.pools.set b.poolId
                 { p with freeList := p.freeList ++ [(bid, b.offset)] },
               s.buffers.set bid { b with loaned := false }⟩) ∨
       (p.live = false ∧
         s' = ⟨s.pools,
               s.buffers.set bid { b with loaned := false, destroyed := true }⟩)) := by
  unfold release at h
  split at h
  · exact absurd h (by simp)
  · rename_i b hb
    split at h
    · rename_i hlo
      split at h
      · exact absurd h (by simp)
      · rename_i p hp
        split at h
        · rename_i hl
          exact ⟨b, p, hb, hlo, hp, Or.inl ⟨hl, (Option.some.inj h).symm⟩⟩
        · rename_i hl
          exact ⟨b, p, hb, hlo, hp,
            Or.inr ⟨Bool.not_eq_true p.live ▸ hl, (Option.some.inj h).symm⟩⟩
    · exact absurd h (by simp)

/-- Characterization of a successful `destroyPool` call. -/
theorem destroyPool_inv {s s' : World} {pid : Nat} (h : destroyPool s pid = some s') :
    ∃ p, s.pools[pid]? = some p ∧ p.live = true ∧
      s' = ⟨s.pools.set pid
              { p with live := false, freeList := [], shmDestroyed := true },
            destroyFreeBuffers s.buffers p.freeList⟩ := by
  unfold destroyPool at h
  split at h
  · exact absurd h (by simp)
  · rename_i p hp
    split at h
    · rename_i hl
      exact ⟨p, hp, hl, (Option.some.inj h).symm⟩
    · exact absurd h (by simp)

theorem destroyFreeBuffers_nil (bs : List Buffer) : destroyFreeBuffers bs [] = bs := rfl

theorem destroyFreeBuffers_cons (bs : List Buffer) (e : Nat × Nat)
    (es : List (Nat × Nat)) :
    destroyFreeBuffers bs (e :: es) =
      destroyFreeBuffers
        (match bs[e.1]? with
         | some b => bs.set e.1 { b with destroyed := true }
         | none => bs) es := rfl

theorem destroyFreeBuffers_length (bs : List Buffer) (es : List (Nat × Nat)) :
    (destroyFreeBuffers bs es).length = bs.length := by
  induction es generalizing bs with
  | nil => rfl
  | cons e es ih =>
    rw [destroyFreeBuffers_cons]
    cases hb : bs[e.1]? with
    | none => simp only [hb]; exact ih bs
    | some b => simp only [hb]; rw [ih]; exact List.length_set bs e.1 _

/-- Destroying the buffers on a free list marks exactly the listed buffer
ids as destroyed and leaves every other buffer untouched. -/
theorem destroyFreeBuffers_getElem? (bs : List Buffer) (es : List (Nat × Nat))
    (i : Nat) :
    (destroyFreeBuffers bs es)[i]? =
      if i ∈ es.map Prod.fst then
        (bs[i]?).map (fun b => { b with destroyed := true })
      else bs[i]? := by
  induction es generalizing bs with
  | nil => simp [destroyFreeBuffers]
  | cons e es ih =>
    rw [destroyFreeBuffers_cons]
    cases hb : bs[e.1]? with
    | none =>
      simp only [hb]
      rw [ih]
      simp only [List.map_cons, List.mem_cons]
      by_cases he : i = e.1
      · subst he
        simp [hb]
      · by_cases hm : i ∈ List.map Prod.fst es
        · rw [if_pos hm, if_pos (Or.inr hm)]
        · rw [if_neg hm, if_neg (by rintro (h | h) <;> [exact he h; exact hm h])]
    | some b =>
      simp only [hb]
      rw [ih]
      simp only [List.map_cons, List.mem_cons]
      by_cases he : i = e.1
      · subst he
        have hset := getElem?_set_of_get { b with destroyed := true } hb e.1
        rw [if_pos rfl] at hset
        rw [hset, hb]
        cases b
        simp
      · have hset := getElem?_set_of_get { b with destroyed := true } hb i
        rw [if_neg (fun hh => he hh.symm)] at hset
        rw [hset]
        by_cases hm : i ∈ List.map Prod.fst es
        · rw [if_pos hm, if_pos (Or.inr hm)]
        · rw [if_neg hm, if_neg (by rintro (h | h) <;> [exact he h; exact hm h])]

/-- Lookup in a list with a single element appended. -/
theorem getElem?_append_singleton {α : Type _} (l : List α) (a : α) (n : Nat) :
    (l ++ [a])[n]? =
      if n < l.length then l[n]? else if n = l.length then some a else none := by
  by_cases h : n < l.length
  · simp [List.getElem?_append, h]
  · by_cases h2 : n = l.length
    · subst h2
      simp [List.getElem?_append]
    · have hnone : ([a] : List α)[n - l.length]? = none := by
        apply List.getElem?_eq_none
        simp only [List.length_singleton]
        omega
      simp [List.getElem?_append, h, h2, hnone]

/-- The state invariant maintained by every operation of the subsystem,
relating free lists, handles, loan flags, offsets and mapping lengths. -/
structure Inv (s : World) : Prop where
  poolIdLt : ∀ (i : Nat) (b : Buffer), s.buffers[i]? = some b →
      b.poolId < s.pools.length
  loanedNotDestroyed : ∀ (i : Nat) (b : Buffer), s.buffers[i]? = some b →
      b.loaned = true → b.destroyed = false
  freeMem : ∀ (pid : Nat) (p : Pool), s.pools[pid]? = some p →
      ∀ e ∈ p.freeList,
      ∃ b, s.buffers[e.1]? = some b ∧ b.poolId = pid ∧ b.offset = e.2 ∧
        b.loaned = false ∧ b.destroyed = false
  freeNodup : ∀ (pid : Nat) (p : Pool), s.pools[pid]? = some p →
      (p.freeList.map Prod.fst).Nodup
  deadEmpty : ∀ (pid : Nat) (p : Pool), s.pools[pid]? = some p →
      p.live = false → p.freeList = []
  inBounds : ∀ (i : Nat) (b : Buffer) (p : Pool), s.buffers[i]? = some b →
      s.pools[b.poolId]? = some p →
      b.offset + buffer_size p.width p.height ≤ p.mappingLen
  aligned : ∀ (i : Nat) (b : Buffer) (p : Pool), s.buffers[i]? = some b →
      s.pools[b.poolId]? = some p →
      ∃ k, b.offset = buffer_size p.width p.height * k
  offInj : ∀ (i j : Nat) (b c : Buffer) (p : Pool), s.buffers[i]? = some b →
      s.buffers[j]? = some c → b.poolId = c.poolId →
      s.pools[b.poolId]? = some p →
      0 < buffer_size p.width p.height → b.offset = c.offset → i = j
  lenEq : ∀ (pid : Nat) (p : Pool), s.pools[pid]? = some p →
      p.mappingLen = buffer_size p.width p.height * slotCount s pid

theorem inv_init : Inv World.init := by
  constructor <;> (intros; simp_all [World.init])

theorem inv_newPool {s : World} (hs : Inv s) (w h : Nat) : Inv (newPool s w h).1 := by
  dsimp only [newPool]
  set P0 : Pool := { width := w, height := h, mappingLen := 0, freeList := [], live := true, shmDestroyed := false } with hP0
  have hlook : ∀ (pid : Nat) (p : Pool), (s.pools ++ [P0])[pid]? = some p →
      s.pools[pid]? = some p ∨ (pid = s.pools.length ∧ p = P0) := by
    intro pid p hp
    rw [getElem?_append_singleton] at hp
    by_cases hlt : pid < s.pools.length
    · rw [if_pos hlt] at hp
      exact Or.inl hp
    · rw [if_neg hlt] at hp
      by_cases heq : pid = s.pools.length
      · rw [if_pos heq] at hp
        exact Or.inr ⟨heq, (Option.some.inj hp).symm⟩
      · rw [if_neg heq] at hp
        exact absurd hp (by simp)
  have hkeep : ∀ (pid : Nat) (p : Pool), s.pools[pid]? = some p →
      (s.pools ++ [P0])[pid]? = some p := by
    intro pid p hp
    have hlt : pid < s.pools.length := (List.getElem?_eq_some_iff.mp hp).1
    rw [getElem?_append_singleton, if_pos hlt]
    exact hp
  refine ⟨?_, ?_, ?_, ?_, ?_, ?_, ?_, ?_, ?_⟩
  · intro i b hb
    have := hs.poolIdLt i b hb
    simp only [List.length_append, List.length_singleton]
    omega
  · exact hs.loanedNotDestroyed
  · intro pid p hp e he
    rcases hlook pid p hp with hp' | ⟨_, hp'⟩
    · exact hs.freeMem pid p hp' e he
    · rw [hp'] at he
      exact absurd he (by simp [hP0])
  · intro pid p hp
    rcases hlook pid p hp with hp' | ⟨_, hp'⟩
    · exact hs.freeNodup pid p hp'
    · rw [hp']
      simp [hP0]
  · intro pid p hp hlive
    rcases hlook pid p hp with hp' | ⟨_, hp'⟩
    · exact hs.deadEmpty pid p hp' hlive
    · rw [hp']
  · intro i b p hb hp
    rcases hlook b.poolId p hp with hp' | ⟨hid, _⟩
    · exact hs.inBounds i b p hb hp'
    · exact absurd hid (Nat.ne_of_lt (hs.poolIdLt i b hb))
  · intro i b p hb hp
    rcases hlook b.poolId p hp with hp' | ⟨hid, _⟩
    · exact hs.aligned i b p hb hp'
    · exact absurd hid (Nat.ne_of_lt (hs.poolIdLt i b hb))
  · intro i j b c p hb hc hpc hp hpos hoff
    rcases hlook b.poolId p hp with hp' | ⟨hid, _⟩
    · exact hs.offInj i j b c p hb hc hpc hp' hpos hoff
    · exact absurd hid (Nat.ne_of_lt (hs.poolIdLt i b hb))
  · intro pid p hp
    rcases hlook pid p hp with hp' | ⟨hid, hp'⟩
    · exact hs.lenEq pid p hp'
    · rw [hp']
      have hzero : slotCount ⟨s.pools ++ [P0], s.buffers⟩ pid = 0 := by
        apply List.countP_eq_zero.mpr
        intro b hbmem
        obtain ⟨k, hk, hbk⟩ := List.mem_iff_getElem.mp hbmem
        have := hs.poolIdLt k b (List.getElem?_eq_some_iff.mpr ⟨hk, hbk⟩)
        simp only [beq_iff_eq]
        omega
      rw [hzero]
      simp [hP0]

theorem inv_get_buffer {s s' : World} {pid bid off : Nat} (hs : Inv s)
    (h : get_buffer s pid = some (s', bid, off)) : Inv s' := by
  obtain ⟨p, hp, hl, hcase | hcase⟩ := get_buffer_inv h
  · obtain ⟨l, b, hfl, hb, hs'⟩ := hcase
    subst hs'
    obtain ⟨b0, hb0, hbpool, hboff, hbloan, hbdes⟩ :=
      hs.freeMem pid p hp (bid, off)
        (by rw [hfl]; exact List.mem_append_right _ (by simp))
    rw [hb] at hb0
    injection hb0 with hb0'
    subst hb0'
    have hnin : bid ∉ l.map Prod.fst := by
      have hnd := hs.freeNodup pid p hp
      rw [hfl, List.map_append] at hnd
      have := (List.nodup_append.mp hnd).2.2
      intro hmem
      exact this hmem (by simp)
    have hpl := getElem?_set_of_get { p with freeList := l } hp
    have hbl := getElem?_set_of_get { b with loaned := true } hb
    have hbuf : ∀ (i : Nat) (c : Buffer),
        (s.buffers.set bid { b with loaned := true })[i]? = some c →
        ∃ c0, s.buffers[i]? = some c0 ∧ c.offset = c0.offset ∧
          c.poolId = c0.poolId ∧ c.destroyed = c0.destroyed := by
      intro i c hc
      rw [hbl i] at hc
      by_cases hib : bid = i
      · rw [if_pos hib] at hc
        injection hc with hc'
        subst hc'
        exact ⟨b, by rw [← hib]; exact hb, rfl, rfl, rfl⟩
      · rw [if_neg hib] at hc
        exact ⟨c, hc, rfl, rfl, rfl⟩
    have hpool : ∀ (q : Nat) (q' : Pool),
        (s.pools.set pid { p with freeList := l })[q]? = some q' →
        ∃ q0, s.pools[q]? = some q0 ∧ q'.width = q0.width ∧
          q'.height = q0.height ∧ q'.mappingLen = q0.mappingLen := by
      intro q q' hq
      rw [hpl q] at hq
      by_cases hpq : pid = q
      · rw [if_pos hpq] at hq
        injection hq with hq'
        subst hq'
        exact ⟨p, by rw [← hpq]; exact hp, rfl, rfl, rfl⟩
      · rw [if_neg hpq] at hq
        exact ⟨q', hq, rfl, rfl, rfl⟩
    have hsc : ∀ q : Nat,
        slotCount ⟨s.pools.set pid { p with freeList := l },
                   s.buffers.set bid { b with loaned := true }⟩ q =
          slotCount s q := by
      intro q
      exact countP_set_same _ hb rfl
    refine ⟨?_, ?_, ?_, ?_, ?_, ?_, ?_, ?_, ?_⟩
    · intro i c hc
      obtain ⟨c0, hc0, _, hpid0, _⟩ := hbuf i c hc
      have := hs.poolIdLt i c0 hc0
      dsimp only
      rw [List.length_set, hpid0]
      exact this
    · intro i c hc _
      dsimp only at hc
      rw [hbl i] at hc
      by_cases hib : bid = i
      · rw [if_pos hib] at hc
        injection hc with hc'
        subst hc'
        exact hbdes
      · rw [if_neg hib] at hc
        rename_i hcl
        exact hs.loanedNotDestroyed i c hc hcl
    · intro q q' hq e he
      dsimp only at hq ⊢
      rw [hpl q] at hq
      by_cases hpq : pid = q
      · rw [if_pos hpq] at hq
        injection hq with hq'
        subst hq'
        have hel : e ∈ p.freeList := by
          rw [hfl]
          exact List.mem_append_left _ he
        obtain ⟨b', hb', hpool', hoff', hloan', hdes'⟩ := hs.freeMem pid p hp e hel
        have hne : bid ≠ e.1 := by
          intro hcontra
          exact hnin (List.mem_map.mpr ⟨e, he, hcontra.symm⟩)
        refine ⟨b', ?_, by rw [← hpq]; exact hpool', hoff', hloan', hdes'⟩
        rw [hbl e.1, if_neg hne]
        exact hb'
      · rw [if_neg hpq] at hq
        obtain ⟨b', hb', hpool', hoff', hloan', hdes'⟩ := hs.freeMem q q' hq e he
        have hne : bid ≠ e.1 := by
          intro hcontra
          rw [← hcontra, hb] at hb'
          injection hb' with hb''
          rw [← hb''] at hpool'
          exact hpq (hbpool.symm.trans hpool')
        refine ⟨b', ?_, hpool', hoff', hloan', hdes'⟩
        rw [hbl e.1, if_neg hne]
        exact hb'
    · intro q q' hq
      dsimp only at hq
      rw [hpl q] at hq
      by_cases hpq : pid = q
      · rw [if_pos hpq] at hq
        injection hq with hq'
        subst hq'
        have hnd := hs.freeNodup pid p hp
        rw [hfl, List.map_append] at hnd
        exact (List.nodup_append.mp hnd).1
      · rw [if_neg hpq] at hq
        exact hs.freeNodup q q' hq
    · intro q q' hq hdead
      dsimp only at hq
      rw [hpl q] at hq
      by_cases hpq : pid = q
      · rw [if_pos hpq] at hq
        injection hq with hq'
        subst hq'
        exact absurd (hl ▸ hdead) (by simp)
      · rw [if_neg hpq] at hq
        exact hs.deadEmpty q q' hq hdead
    · intro i c q hc hq
      dsimp only at hc hq ⊢
      obtain ⟨c0, hc0, hoff0, hpid0, _⟩ := hbuf i c hc
      rw [hpid0] at hq
      obtain ⟨q0, hq0, hw, hh, hm⟩ := hpool c0.poolId q hq
      rw [hoff0, hw, hh, hm]
      exact hs.inBounds i c0 q0 hc0 hq0
    · intro i c q hc hq
      dsimp only at hc hq ⊢
      obtain ⟨c0, hc0, hoff0, hpid0, _⟩ := hbuf i c hc
      rw [hpid0] at hq
      obtain ⟨q0, hq0, hw, hh, _⟩ := hpool c0.poolId q hq
      rw [hoff0, hw, hh]
      exact hs.aligned i c0 q0 hc0 hq0
    · intro i j c d q hc hd hcd hq hpos hoffeq
      dsimp only at hc hd hq
      obtain ⟨c0, hc0, hoffc, hpidc, _⟩ := hbuf i c hc
      obtain ⟨d0, hd0, hoffd, hpidd, _⟩ := hbuf j d hd
      rw [hpidc, hpidd] at hcd
      rw [hpidc] at hq
      obtain ⟨q0, hq0, hw, hh, _⟩ := hpool c0.poolId q hq
      rw [hw, hh] at hpos
      rw [hoffc, hoffd] at hoffeq
      exact hs.offInj i j c0 d0 q0 hc0 hd0 hcd hq0 hpos hoffeq
    · intro q q' hq
      dsimp only at hq ⊢
      rw [hpl q] at hq
      rw [hsc q]
      by_cases hpq : pid = q
      · rw [if_pos hpq] at hq
        injection hq with hq'
        subst hq'
        rw [← hpq]
        exact hs.lenEq pid p hp
      · rw [if_neg hpq] at hq
        exact hs.lenEq q q' hq
  · obtain ⟨hfl, hbid, hoff, hs'⟩ := hcase
    subst hs'
    subst hbid
    subst hoff
    have hpidlt : pid < s.pools.length := (List.getElem?_eq_some_iff.mp hp).1
    have hpl := getElem?_set_of_get
      { p with mappingLen := p.mappingLen + buffer_size p.width p.height } hp
    have hball := getElem?_append_singleton s.buffers
      ({ offset := p.mappingLen, poolId := pid, loaned := true,
         destroyed := false } : Buffer)
    have hbuf : ∀ (i : Nat) (c : Buffer),
        (s.buffers ++
          [({ offset := p.mappingLen, poolId := pid, loaned := true,
              destroyed := false } : Buffer)])[i]? = some c →
        s.buffers[i]? = some c ∨
          (i = s.buffers.length ∧
            c = { offset := p.mappingLen, poolId := pid, loaned := true,
                  destroyed := false }) := by
      intro i c hc
      rw [hball i] at hc
      by_cases hlt : i < s.buffers.length
      · rw [if_pos hlt] at hc
        exact Or.inl hc
      · rw [if_neg hlt] at hc
        by_cases heq : i = s.buffers.length
        · rw [if_pos heq] at hc
          injection hc with hc'
          exact Or.inr ⟨heq, hc'.symm⟩
        · rw [if_neg heq] at hc
          exact absurd hc (by simp)
    have hkeep : ∀ (i : Nat) (c : Buffer), s.buffers[i]? = some c →
        (s.buffers ++
          [({ offset := p.mappingLen, poolId := pid, loaned := true,
              destroyed := false } : Buffer)])[i]? = some c := by
      intro i c hc
      rw [hball i, if_pos (List.getElem?_eq_some_iff.mp hc).1]
      exact hc
    have hpool : ∀ (q : Nat) (q' : Pool),
        (s.pools.set pid
          { p with mappingLen := p.mappingLen + buffer_size p.width p.height })[q]? =
          some q' →
        (pid ≠ q ∧ s.pools[q]? = some q') ∨
          (pid = q ∧
            q' = { p with
                   mappingLen := p.mappingLen + buffer_size p.width p.height }) := by
      intro q q' hq
      rw [hpl q] at hq
      by_cases hpq : pid = q
      · rw [if_pos hpq] at hq
        injection hq with hq'
        exact Or.inr ⟨hpq, hq'.symm⟩
      · rw [if_neg hpq] at hq
        exact Or.inl ⟨hpq, hq⟩
    refine ⟨?_, ?_, ?_, ?_, ?_, ?_, ?_, ?_, ?_⟩
    · intro i c hc
      dsimp only at hc ⊢
      rw [List.length_set]
      rcases hbuf i c hc with hc' | ⟨_, hc'⟩
      · exact hs.poolIdLt i c hc'
      · rw [hc']
        exact hpidlt
    · intro i c hc hcl
      dsimp only at hc
      rcases hbuf i c hc with hc' | ⟨_, hc'⟩
      · exact hs.loanedNotDestroyed i c hc' hcl
      · rw [hc']
    · intro q q' hq e he
      dsimp only at hq ⊢
      rcases hpool q q' hq with ⟨hpq, hq'⟩ | ⟨hpq, hq'⟩
      · obtain ⟨b', hb', hpool', hoff', hloan', hdes'⟩ := hs.freeMem q q' hq' e he
        exact ⟨b', hkeep e.1 b' hb', hpool', hoff', hloan', hdes'⟩
      · rw [hq'] at he
        dsimp only at he
        rw [hfl] at he
        exact absurd he (by simp)
    · intro q q' hq
      rcases hpool q q' hq with ⟨hpq, hq'⟩ | ⟨hpq, hq'⟩
      · exact hs.freeNodup q q' hq'
      · rw [hq']
        dsimp only
        rw [hfl]
        simp
    · intro q q' hq hdead
      rcases hpool q q' hq with ⟨hpq, hq'⟩ | ⟨hpq, hq'⟩
      · exact hs.deadEmpty q q' hq' hdead
      · rw [hq'] at hdead
        dsimp only at hdead
        exact absurd (hl ▸ hdead) (by simp)
    · intro i c q hc hq
      dsimp only at hc hq ⊢
      rcases hbuf i c hc with hc' | ⟨_, hc'⟩
      · rcases hpool c.poolId q hq with ⟨hpq, hq'⟩ | ⟨hpq, hq'⟩
        · exact hs.inBounds i c q hc' hq'
        · have hb0 : s.pools[c.poolId]? = some p := by
            rw [← hpq]
            exact hp
          have := hs.inBounds i c p hc' hb0
          rw [hq']
          dsimp only
          omega
      · rw [hc'] at hq ⊢
        dsimp only at hq ⊢
        rcases hpool pid q hq with ⟨hpq, _⟩ | ⟨_, hq'⟩
        · exact absurd rfl hpq
        · rw [hq']
    · intro i c q hc hq
      dsimp only at hc hq ⊢
      rcases hbuf i c hc with hc' | ⟨_, hc'⟩
      · rcases hpool c.poolId q hq with ⟨hpq, hq'⟩ | ⟨hpq, hq'⟩
        · exact hs.aligned i c q hc' hq'
        · have hb0 : s.pools[c.poolId]? = some p := by
            rw [← hpq]
            exact hp
          obtain ⟨k, hk⟩ := hs.aligned i c p hc' hb0
          rw [hq']
          exact ⟨k, hk⟩
      · rw [hc'] at hq ⊢
        dsimp only at hq ⊢
        rcases hpool pid q hq with ⟨hpq, _⟩ | ⟨_, hq'⟩
        · exact absurd rfl hpq
        · rw [hq']
          dsimp only
          exact ⟨slotCount s pid, hs.lenEq pid p hp⟩
    · intro i j c d q hc hd hcd hq hpos hoffeq
      dsimp only at hc hd hq
      rcases hbuf i c hc with hc' | ⟨hi, hc'⟩ <;> rcases hbuf j d hd with hd' | ⟨hj, hd'⟩
      · rcases hpool c.poolId q hq with ⟨hpq, hq'⟩ | ⟨hpq, hq'⟩
        · exact hs.offInj i j c d q hc' hd' hcd hq' hpos hoffeq
        · have hb0 : s.pools[c.poolId]? = some p := by
            rw [← hpq]
            exact hp
          rw [hq'] at hpos
          dsimp only at hpos
          exact hs.offInj i j c d p hc' hd' hcd hb0 hpos hoffeq
      · exfalso
        rw [hd'] at hcd hoffeq
        dsimp only at hcd hoffeq
        have hb0 : s.pools[c.poolId]? = some p := by
          rw [hcd]
          exact hp
        have hbound := hs.inBounds i c p hc' hb0
        rcases hpool c.poolId q hq with ⟨hpq, _⟩ | ⟨_, hq'⟩
        · rw [hcd] at hpq
          exact hpq rfl
        · rw [hq'] at hpos
          dsimp only at hpos
          omega
      · exfalso
        rw [hc'] at hcd hoffeq hq
        dsimp only at hcd hoffeq hq
        have hb0 : s.pools[d.poolId]? = some p := by
          rw [← hcd]
          exact hp
        have hbound := hs.inBounds j d p hd' hb0
        rcases hpool pid q hq with ⟨hpq, _⟩ | ⟨_, hq'⟩
        · exact hpq rfl
        · rw [hq'] at hpos
          dsimp only at hpos
          omega
      · rw [hi, hj]
    · intro q q' hq
      dsimp only at hq ⊢
      have hcnt : slotCount
          ⟨s.pools.set pid
             { p with mappingLen := p.mappingLen + buffer_size p.width p.height },
           s.buffers ++
             [({ offset := p.mappingLen, poolId := pid, loaned := true,
                 destroyed := false } : Buffer)]⟩ q =
          slotCount s q + (if pid == q then 1 else 0) := by
        show (s.buffers ++ _).countP _ = _
        rw [List.countP_append, List.countP_singleton]
        rfl
      rcases hpool q q' hq with ⟨hpq, hq'⟩ | ⟨hpq, hq'⟩
      · rw [hcnt]
        have hne : (pid == q) = false := by
          simp [hpq]
        rw [hne, if_neg Bool.false_ne_true, Nat.add_zero]
        exact hs.lenEq q q' hq'
      · rw [hcnt, hq']
        dsimp only
        have heq : (pid == q) = true := by
          simp [hpq]
        rw [heq, if_pos rfl]
        have hlen := hs.lenEq pid p hp
        rw [← hpq, Nat.mul_succ]
        omega

theorem inv_release {s s' : World} {bid : Nat} (hs : Inv s)
    (h : release s bid = some s') : Inv s' := by
  obtain ⟨b, p, hb, hlo, hp, hcase⟩ := release_inv h
  have hdes : b.destroyed = false := hs.loanedNotDestroyed bid b hb hlo
  have hnotin : ∀ (q : Nat) (q' : Pool), s.pools[q]? = some q' →
      ∀ e ∈ q'.freeList, e.1 ≠ bid := by
    intro q q' hq e he hcontra
    obtain ⟨b', hb', _, _, hloan', _⟩ := hs.freeMem q q' hq e he
    rw [hcontra, hb] at hb'
    injection hb' with hb''
    rw [← hb''] at hloan'
    exact absurd (hloan'.symm.trans hlo) (by simp)
  rcases hcase with ⟨hl, hs'⟩ | ⟨hl, hs'⟩
  · subst hs'
    have hpl := getElem?_set_of_get
      { p with freeList := p.freeList ++ [(bid, b.offset)] } hp
    have hbl := getElem?_set_of_get { b with loaned := false } hb
    have hbuf : ∀ (i : Nat) (c : Buffer),
        (s.buffers.set bid { b with loaned := false })[i]? = some c →
        ∃ c0, s.buffers[i]? = some c0 ∧ c.offset = c0.offset ∧
          c.poolId = c0.poolId ∧ c.destroyed = c0.destroyed := by
      intro i c hc
      rw [hbl i] at hc
      by_cases hib : bid = i
      · rw [if_pos hib] at hc
        injection hc with hc'
        subst hc'
        exact ⟨b, by rw [← hib]; exact hb, rfl, rfl, rfl⟩
      · rw [if_neg hib] at hc
        exact ⟨c, hc, rfl, rfl, rfl⟩
    have hpool : ∀ (q : Nat) (q' : Pool),
        (s.pools.set b.poolId
          { p with freeList := p.freeList ++ [(bid, b.offset)] })[q]? = some q' →
        ∃ q0, s.pools[q]? = some q0 ∧ q'.width = q0.width ∧
          q'.height = q0.height ∧ q'.mappingLen = q0.mappingLen := by
      intro q q' hq
      rw [hpl q] at hq
      by_cases hpq : b.poolId = q
      · rw [if_pos hpq] at hq
        injection hq with hq'
        subst hq'
        exact ⟨p, by rw [← hpq]; exact hp, rfl, rfl, rfl⟩
      · rw [if_neg hpq] at hq
        exact ⟨q', hq, rfl, rfl, rfl⟩
    have hsc : ∀ q : Nat,
        slotCount ⟨s.pools.set b.poolId
                     { p with freeList := p.freeList ++ [(bid, b.offset)] },
                   s.buffers.set bid { b with loaned := false }⟩ q =
          slotCount s q := by
      intro q
      exact countP_set_same _ hb rfl
    refine ⟨?_, ?_, ?_, ?_, ?_, ?_, ?_, ?_, ?_⟩
    · intro i c hc
      obtain ⟨c0, hc0, _, hpid0, _⟩ := hbuf i c hc
      have := hs.poolIdLt i c0 hc0
      dsimp only
      rw [List.length_set, hpid0]
      exact this
    · intro i c hc hcl
      dsimp only at hc
      rw [hbl i] at hc
      by_cases hib : bid = i
      · rw [if_pos hib] at hc
        injection hc with hc'
        subst hc'
        exact absurd hcl (by simp)
      · rw [if_neg hib] at hc
        exact hs.loanedNotDestroyed i c hc hcl
    · intro q q' hq e he
      dsimp only at hq ⊢
      rw [hpl q] at hq
      by_cases hpq : b.poolId = q
      · rw [if_pos hpq] at hq
        injection hq with hq'
        subst hq'
        dsimp only at he
        rcases List.mem_append.mp he with he' | he'
        · obtain ⟨b', hb', hpool', hoff', hloan', hdes'⟩ :=
            hs.freeMem b.poolId p hp e he'
          have hne : bid ≠ e.1 := fun hc => hnotin b.poolId p hp e he' hc.symm
          refine ⟨b', ?_, by rw [← hpq]; exact hpool', hoff', hloan', hdes'⟩
          rw [hbl e.1, if_neg hne]
          exact hb'
        · have he2 : e = (bid, b.offset) := by simpa using he'
          subst he2
          refine ⟨{ b with loaned := false }, ?_, by rw [← hpq], rfl, rfl, hdes⟩
          rw [hbl bid, if_pos rfl]
      · rw [if_neg hpq] at hq
        obtain ⟨b', hb', hpool', hoff', hloan', hdes'⟩ := hs.freeMem q q' hq e he
        have hne : bid ≠ e.1 := fun hc => hnotin q q' hq e he hc.symm
        refine ⟨b', ?_, hpool', hoff', hloan', hdes'⟩
        rw [hbl e.1, if_neg hne]
        exact hb'
    · intro q q' hq
      dsimp only at hq
      rw [hpl q] at hq
      by_cases hpq : b.poolId = q
      · rw [if_pos hpq] at hq
        injection hq with hq'
        subst hq'
        dsimp only
        rw [List.map_append]
        refine List.nodup_append.mpr ⟨hs.freeNodup b.poolId p hp, by simp, ?_⟩
        intro a ha ha2
        have ha3 : a = bid := by simpa using ha2
        obtain ⟨e, he, hea⟩ := List.mem_map.mp ha
        exact hnotin b.poolId p hp e he (hea.trans ha3)
      · rw [if_neg hpq] at hq
        exact hs.freeNodup q q' hq
    · intro q q' hq hdead
      dsimp only at hq
      rw [hpl q] at hq
      by_cases hpq : b.poolId = q
      · rw [if_pos hpq] at hq
        injection hq with hq'
        subst hq'
        exact absurd (hl ▸ hdead) (by simp)
      · rw [if_neg hpq] at hq
        exact hs.deadEmpty q q' hq hdead
    · intro i c q hc hq
      dsimp only at hc hq ⊢
      obtain ⟨c0, hc0, hoff0, hpid0, _⟩ := hbuf i c hc
      rw [hpid0] at hq
      obtain ⟨q0, hq0, hw, hh, hm⟩ := hpool c0.poolId q hq
      rw [hoff0, hw, hh, hm]
      exact hs.inBounds i c0 q0 hc0 hq0
    · intro i c q hc hq
      dsimp only at hc hq ⊢
      obtain ⟨c0, hc0, hoff0, hpid0, _⟩ := hbuf i c hc
      rw [hpid0] at hq
      obtain ⟨q0, hq0, hw, hh, _⟩ := hpool c0.poolId q hq
      rw [hoff0, hw, hh]
      exact hs.aligned i c0 q0 hc0 hq0
    · intro i j c d q hc hd hcd hq hpos hoffeq
      dsimp only at hc hd hq
      obtain ⟨c0, hc0, hoffc, hpidc, _⟩ := hbuf i c hc
      obtain ⟨d0, hd0, hoffd, hpidd, _⟩ := hbuf j d hd
      rw [hpidc, hpidd] at hcd
      rw [hpidc] at hq
      obtain ⟨q0, hq0, hw, hh, _⟩ := hpool c0.poolId q hq
      rw [hw, hh] at hpos
      rw [hoffc, hoffd] at hoffeq
      exact hs.offInj i j c0 d0 q0 hc0 hd0 hcd hq0 hpos hoffeq
    · intro q q' hq
      dsimp only at hq ⊢
      rw [hpl q] at hq
      rw [hsc q]
      by_cases hpq : b.poolId = q
      · rw [if_pos hpq] at hq
        injection hq with hq'
        subst hq'
        dsimp only
        rw [← hpq]
        exact hs.lenEq b.poolId p hp
      · rw [if_neg hpq] at hq
        exact hs.lenEq q q' hq
  · subst hs'
    have hbl := getElem?_set_of_get { b with loaned := false, destroyed := true } hb
    have hbuf : ∀ (i : Nat) (c : Buffer),
        (s.buffers.set bid { b with loaned := false, destroyed := true })[i]? =
          some c →
        ∃ c0, s.buffers[i]? = some c0 ∧ c.offset = c0.offset ∧
          c.poolId = c0.poolId := by
      intro i c hc
      rw [hbl i] at hc
      by_cases hib : bid = i
      · rw [if_pos hib] at hc
        injection hc with hc'
        subst hc'
        exact ⟨b, by rw [← hib]; exact hb, rfl, rfl⟩
      · rw [if_neg hib] at hc
        exact ⟨c, hc, rfl, rfl⟩
    have hsc : ∀ q : Nat,
        slotCount ⟨s.pools,
                   s.buffers.set bid
                     { b with loaned := false, destroyed := true }⟩ q =
          slotCount s q := by
      intro q
      exact countP_set_same _ hb rfl
    refine ⟨?_, ?_, ?_, ?_, ?_, ?_, ?_, ?_, ?_⟩
    · intro i c hc
      obtain ⟨c0, hc0, _, hpid0⟩ := hbuf i c hc
      have := hs.poolIdLt i c0 hc0
      dsimp only
      rw [hpid0]
      exact this
    · intro i c hc hcl
      dsimp only at hc
      rw [hbl i] at hc
      by_cases hib : bid = i
      · rw [if_pos hib] at hc
        injection hc with hc'
        subst hc'
        exact absurd hcl (by simp)
      · rw [if_neg hib] at hc
        exact hs.loanedNotDestroyed i c hc hcl
    · intro q q' hq e he
      dsimp only at hq ⊢
      obtain ⟨b', hb', hpool', hoff', hloan', hdes'⟩ := hs.freeMem q q' hq e he
      have hne : bid ≠ e.1 := fun hc => hnotin q q' hq e he hc.symm
      refine ⟨b', ?_, hpool', hoff', hloan', hdes'⟩
      rw [hbl e.1, if_neg hne]
      exact hb'
    · intro q q' hq
      exact hs.freeNodup q q' hq
    · intro q q' hq hdead
      exact hs.deadEmpty q q' hq hdead
    · intro i c q hc hq
      dsimp only at hc hq ⊢
      obtain ⟨c0, hc0, hoff0, hpid0⟩ := hbuf i c hc
      rw [hpid0] at hq
      rw [hoff0]
      exact hs.inBounds i c0 q hc0 hq
    · intro i c q hc hq
      dsimp only at hc hq ⊢
      obtain ⟨c0, hc0, hoff0, hpid0⟩ := hbuf i c hc
      rw [hpid0] at hq
      rw [hoff0]
      exact hs.aligned i c0 q hc0 hq
    · intro i j c d q hc hd hcd hq hpos hoffeq
      dsimp only at hc hd hq
      obtain ⟨c0, hc0, hoffc, hpidc⟩ := hbuf i c hc
      obtain ⟨d0, hd0, hoffd, hpidd⟩ := hbuf j d hd
      rw [hpidc, hpidd] at hcd
      rw [hpidc] at hq
      rw [hoffc, hoffd] at hoffeq
      exact hs.offInj i j c0 d0 q hc0 hd0 hcd hq hpos hoffeq
    · intro q q' hq
      dsimp only at hq ⊢
      rw [hsc q]
      exact hs.lenEq q q' hq

/-- Destroying free-list buffers only flips their `destroyed` flag, so any
count over `poolId` is unchanged. -/
theorem destroyFreeBuffers_countP (bs : List Buffer) (es : List (Nat × Nat))
    (q : Nat) :
    (destroyFreeBuffers bs es).countP (fun b => b.poolId == q) =
      bs.countP (fun b => b.poolId == q) := by
  induction es generalizing bs with
  | nil => rfl
  | cons e es ih =>
    rw [destroyFreeBuffers_cons]
    cases hb : bs[e.1]? with
    | none =>
      simp only [hb]
      exact ih bs
    | some b =>
      simp only [hb]
      rw [ih]
      exact countP_set_same _ hb rfl

theorem inv_destroyPool {s s' : World} {pid : Nat} (hs : Inv s)
    (h : destroyPool s pid = some s') : Inv s' := by
  obtain ⟨p, hp, hl, hs'⟩ := destroyPool_inv h
  subst hs'
  have hpl := getElem?_set_of_get
    { p with live := false, freeList := [], shmDestroyed := true } hp
  have hball := destroyFreeBuffers_getElem? s.buffers p.freeList
  have hmemD : ∀ i : Nat, i ∈ p.freeList.map Prod.fst →
      ∃ b0, s.buffers[i]? = some b0 ∧ b0.poolId = pid ∧ b0.loaned = false := by
    intro i hi
    obtain ⟨e, he, hei⟩ := List.mem_map.mp hi
    obtain ⟨b0, hb0, hpool0, _, hloan0, _⟩ := hs.freeMem pid p hp e he
    rw [hei] at hb0
    exact ⟨b0, hb0, hpool0, hloan0⟩
  have hbuf : ∀ (i : Nat) (c : Buffer),
      (destroyFreeBuffers s.buffers p.freeList)[i]? = some c →
      ∃ c0, s.buffers[i]? = some c0 ∧ c.offset = c0.offset ∧
        c.poolId = c0.poolId ∧ c.loaned = c0.loaned := by
    intro i c hc
    rw [hball i] at hc
    by_cases hi : i ∈ p.freeList.map Prod.fst
    · rw [if_pos hi] at hc
      cases hb0 : s.buffers[i]? with
      | none => rw [hb0] at hc; exact absurd hc (by simp)
      | some c0 =>
        rw [hb0] at hc
        simp only [Option.map_some'] at hc
        injection hc with hc'
        subst hc'
        exact ⟨c0, rfl, rfl, rfl, rfl⟩
    · rw [if_neg hi] at hc
      exact ⟨c, hc, rfl, rfl, rfl⟩
  have hpool : ∀ (q : Nat) (q' : Pool),
      (s.pools.set pid
        { p with live := false, freeList := [], shmDestroyed := true })[q]? =
        some q' →
      ∃ q0, s.pools[q]? = some q0 ∧ q'.width = q0.width ∧
        q'.height = q0.height ∧ q'.mappingLen = q0.mappingLen := by
    intro q q' hq
    rw [hpl q] at hq
    by_cases hpq : pid = q
    · rw [if_pos hpq] at hq
      injection hq with hq'
      subst hq'
      exact ⟨p, by rw [← hpq]; exact hp, rfl, rfl, rfl⟩
    · rw [if_neg hpq] at hq
      exact ⟨q', hq, rfl, rfl, rfl⟩
  refine ⟨?_, ?_, ?_, ?_, ?_, ?_, ?_, ?_, ?_⟩
  · intro i c hc
    obtain ⟨c0, hc0, _, hpid0, _⟩ := hbuf i c hc
    have := hs.poolIdLt i c0 hc0
    dsimp only
    rw [List.length_set, hpid0]
    exact this
  · intro i c hc hcl
    dsimp only at hc
    rw [hball i] at hc
    by_cases hi : i ∈ p.freeList.map Prod.fst
    · rw [if_pos hi] at hc
      obtain ⟨c0, hc0, _, hloan0⟩ := hmemD i hi
      rw [hc0] at hc
      simp only [Option.map_some'] at hc
      injection hc with hc'
      subst hc'
      exact absurd (hloan0.symm.trans hcl) (by simp)
    · rw [if_neg hi] at hc
      exact hs.loanedNotDestroyed i c hc hcl
  · intro q q' hq e he
    dsimp only at hq ⊢
    rw [hpl q] at hq
    by_cases hpq : pid = q
    · rw [if_pos hpq] at hq
      injection hq with hq'
      subst hq'
      exact absurd he (by simp)
    · rw [if_neg hpq] at hq
      obtain ⟨b', hb', hpool', hoff', hloan', hdes'⟩ := hs.freeMem q q' hq e he
      have hni : e.1 ∉ p.freeList.map Prod.fst := by
        intro hi
        obtain ⟨b0, hb0, hpool0, _⟩ := hmemD e.1 hi
        rw [hb'] at hb0
        injection hb0 with hb0'
        rw [← hb0'] at hpool0
        exact hpq (hpool0.symm.trans hpool')
      refine ⟨b', ?_, hpool', hoff', hloan', hdes'⟩
      rw [hball e.1, if_neg hni]
      exact hb'
  · intro q q' hq
    dsimp only at hq
    rw [hpl q] at hq
    by_cases hpq : pid = q
    · rw [if_pos hpq] at hq
      injection hq with hq'
      subst hq'
      simp
    · rw [if_neg hpq] at hq
      exact hs.freeNodup q q' hq
  · intro q q' hq _
    dsimp only at hq
    rw [hpl q] at hq
    by_cases hpq : pid = q
    · rw [if_pos hpq] at hq
      injection hq with hq'
      subst hq'
      rfl
    · rw [if_neg hpq] at hq
      rename_i hdead
      exact hs.deadEmpty q q' hq hdead
  · intro i c q hc hq
    dsimp only at hc hq ⊢
    obtain ⟨c0, hc0, hoff0, hpid0, _⟩ := hbuf i c hc
    rw [hpid0] at hq
    obtain ⟨q0, hq0, hw, hh, hm⟩ := hpool c0.poolId q hq
    rw [hoff0, hw, hh, hm]
    exact hs.inBounds i c0 q0 hc0 hq0
  · intro i c q hc hq
    dsimp only at hc hq ⊢
    obtain ⟨c0, hc0, hoff0, hpid0, _⟩ := hbuf i c hc
    rw [hpid0] at hq
    obtain ⟨q0, hq0, hw, hh, _⟩ := hpool c0.poolId q hq
    rw [hoff0, hw, hh]
    exact hs.aligned i c0 q0 hc0 hq0
  · intro i j c d q hc hd hcd hq hpos hoffeq
    dsimp only at hc hd hq
    obtain ⟨c0, hc0, hoffc, hpidc, _⟩ := hbuf i c hc
    obtain ⟨d0, hd0, hoffd, hpidd, _⟩ := hbuf j d hd
    rw [hpidc, hpidd] at hcd
    rw [hpidc] at hq
    obtain ⟨q0, hq0, hw, hh, _⟩ := hpool c0.poolId q hq
    rw [hw, hh] at hpos
    rw [hoffc, hoffd] at hoffeq
    exact hs.offInj i j c0 d0 q0 hc0 hd0 hcd hq0 hpos hoffeq
  · intro q q' hq
    dsimp only at hq ⊢
    rw [hpl q] at hq
    have hsc : slotCount
        ⟨s.pools.set pid
           { p with live := false, freeList := [], shmDestroyed := true },
         destroyFreeBuffers s.buffers p.freeList⟩ q = slotCount s q := by
      show (destroyFreeBuffers s.buffers p.freeList).countP _ = _
      exact destroyFreeBuffers_countP s.buffers p.freeList q
    rw [hsc]
    by_cases hpq : pid = q
    · rw [if_pos hpq] at hq
      injection hq with hq'
      subst hq'
      dsimp only
      rw [← hpq]
      exact hs.lenEq pid p hp
    · rw [if_neg hpq] at hq
      exact hs.lenEq q q' hq

/-- Every successful step preserves the invariant. -/
theorem inv_step {s s' : World} {op : Op} (hs : Inv s) (h : step s op = some s') :
    Inv s' := by
  cases op with
  | newPool w hh =>
    simp only [step, Option.some.injEq] at h
    rw [← h]
    exact inv_newPool hs w hh
  | getBuffer pid =>
    simp only [step, Option.map_eq_some'] at h
    obtain ⟨⟨s1, bid, off⟩, hg, hs1⟩ := h
    rw [← hs1]
    exact inv_get_buffer hs hg
  | releaseBuffer bid =>
    exact inv_release hs h
  | destroyPool pid =>
    exact inv_destroyPool hs h

/-- Runs preserve the invariant. -/
theorem inv_run {s s' : World} {ops : List Op} (hs : Inv s)
    (h : run s ops = some s') : Inv s' := by
  induction ops generalizing s with
  | nil =>
    simp only [run, Option.some.injEq] at h
    rw [← h]
    exact hs
  | cons op ops ih =>
    simp only [run] at h
    cases hstep : step s op with
    | none => rw [hstep] at h; exact absurd h (by simp)
    | some s1 =>
      rw [hstep] at h
      exact ih (inv_step hs hstep) h

/-- Every reachable world satisfies the invariant. -/
theorem Reachable.inv {s : World} (h : Reachable s) : Inv s := by
  obtain ⟨ops, hops⟩ := h
  exact inv_run inv_init hops

/-- Facts preserved in one direction by every successful step: object ids
are stable, geometry is fixed, mappings and slot counts only grow,
destroyed buffers stay destroyed, dead pools stay dead. -/
def Evolves (s s' : World) : Prop :=
  s.pools.length ≤ s'.pools.length ∧
  s.buffers.length ≤ s'.buffers.length ∧
  (∀ (i : Nat) (b : Buffer), s.buffers[i]? = some b →
    ∃ b', s'.buffers[i]? = some b' ∧ b'.offset = b.offset ∧
      b'.poolId = b.poolId ∧ (b.destroyed = true → b'.destroyed = true)) ∧
  (∀ (pid : Nat) (p : Pool), s.pools[pid]? = some p →
    ∃ p', s'.pools[pid]? = some p' ∧ p'.width = p.width ∧ p'.height = p.height ∧
      p.mappingLen ≤ p'.mappingLen ∧ (p.live = false → p'.live = false)) ∧
  (∀ pid : Nat, slotCount s pid ≤ slotCount s' pid)

theorem evolves_refl (s : World) : Evolves s s :=
  ⟨Nat.le_refl _, Nat.le_refl _,
   fun _ b hb => ⟨b, hb, rfl, rfl, fun hd => hd⟩,
   fun _ p hp => ⟨p, hp, rfl, rfl, Nat.le_refl _, fun hd => hd⟩,
   fun _ => Nat.le_refl _⟩

theorem evolves_trans {s1 s2 s3 : World} (h12 : Evolves s1 s2)
    (h23 : Evolves s2 s3) : Evolves s1 s3 := by
  obtain ⟨hp12, hb12, hbuf12, hpool12, hc12⟩ := h12
  obtain ⟨hp23, hb23, hbuf23, hpool23, hc23⟩ := h23
  refine ⟨Nat.le_trans hp12 hp23, Nat.le_trans hb12 hb23, ?_, ?_,
    fun pid => Nat.le_trans (hc12 pid) (hc23 pid)⟩
  · intro i b hb
    obtain ⟨b2, hb2, ho2, hp2, hd2⟩ := hbuf12 i b hb
    obtain ⟨b3, hb3, ho3, hp3, hd3⟩ := hbuf23 i b2 hb2
    exact ⟨b3, hb3, ho3.trans ho2, hp3.trans hp2,
      fun hd => hd3 (hd2 hd)⟩
  · intro pid p hp
    obtain ⟨p2, hp2, hw2, hh2, hm2, hl2⟩ := hpool12 pid p hp
    obtain ⟨p3, hp3, hw3, hh3, hm3, hl3⟩ := hpool23 pid p2 hp2
    exact ⟨p3, hp3, hw3.trans hw2, hh3.trans hh2, Nat.le_trans hm2 hm3,
      fun hd => hl3 (hl2 hd)⟩

theorem evolves_step {s s' : World} {op : Op} (h : step s op = some s') :
    Evolves s s' := by
  cases op with
  | newPool w hh =>
    simp only [step, Option.some.injEq] at h
    subst h
    dsimp only [newPool]
    refine ⟨by simp, Nat.le_refl _, fun i b hb => ⟨b, hb, rfl, rfl, fun hd => hd⟩,
      ?_, fun pid => Nat.le_refl _⟩
    intro pid p hp
    refine ⟨p, ?_, rfl, rfl, Nat.le_refl _, fun hd => hd⟩
    rw [getElem?_append_singleton, if_pos (List.getElem?_eq_some_iff.mp hp).1]
    exact hp
  | getBuffer pid =>
    simp only [step, Option.map_eq_some'] at h
    obtain ⟨⟨s1, bid, off⟩, hg, hs1⟩ := h
    subst hs1
    obtain ⟨p, hp, hl, hcase | hcase⟩ := get_buffer_inv hg
    · obtain ⟨l, b, hfl, hb, hs'⟩ := hcase
      subst hs'
      have hpl := getElem?_set_of_get { p with freeList := l } hp
      have hbl := getElem?_set_of_get { b with loaned := true } hb
      refine ⟨by simp [List.length_set], by simp [List.length_set], ?_, ?_, ?_⟩
      · intro i c hc
        by_cases hib : bid = i
        · refine ⟨{ b with loaned := true }, by rw [hbl i, if_pos hib], ?_, ?_, ?_⟩
          · subst hib
            rw [hb] at hc
            injection hc with hc'
            rw [← hc']
          · subst hib
            rw [hb] at hc
            injection hc with hc'
            rw [← hc']
          · subst hib
            rw [hb] at hc
            injection hc with hc'
            rw [← hc']
            exact fun hd => hd
        · exact ⟨c, by rw [hbl i, if_neg hib]; exact hc, rfl, rfl, fun hd => hd⟩
      · intro q q' hq
        by_cases hpq : pid = q
        · refine ⟨{ p with freeList := l }, by rw [hpl q, if_pos hpq], ?_, ?_, ?_, ?_⟩ <;>
            (subst hpq; rw [hp] at hq; injection hq with hq'; rw [← hq'])
          exact fun hd => hd
        · exact ⟨q', by rw [hpl q, if_neg hpq]; exact hq, rfl, rfl, Nat.le_refl _,
            fun hd => hd⟩
      · intro q
        have : slotCount ⟨s.pools.set pid { p with freeList := l },
            s.buffers.set bid { b with loaned := true }⟩ q = slotCount s q :=
          countP_set_same _ hb rfl
        rw [this]
    · obtain ⟨hfl, hbid, hoff, hs'⟩ := hcase
      subst hs'
      have hpl := getElem?_set_of_get
        { p with mappingLen := p.mappingLen + buffer_size p.width p.height } hp
      refine ⟨by simp [List.length_set], by simp, ?_, ?_, ?_⟩
      · intro i c hc
        refine ⟨c, ?_, rfl, rfl, fun hd => hd⟩
        rw [getElem?_append_singleton, if_pos (List.getElem?_eq_some_iff.mp hc).1]
        exact hc
      · intro q q' hq
        by_cases hpq : pid = q
        · refine ⟨{ p with mappingLen := p.mappingLen + buffer_size p.width p.height },
            by rw [hpl q, if_pos hpq], ?_, ?_, ?_, ?_⟩ <;>
            (subst hpq; rw [hp] at hq; injection hq with hq'; rw [← hq'])
          · exact Nat.le_add_right _ _
          · exact fun hd => hd
        · exact ⟨q', by rw [hpl q, if_neg hpq]; exact hq, rfl, rfl, Nat.le_refl _,
            fun hd => hd⟩
      · intro q
        show slotCount s q ≤ (s.buffers ++ _).countP _
        rw [List.countP_append]
        exact Nat.le_add_right _ _
  | releaseBuffer bid =>
    obtain ⟨b, p, hb, hlo, hp, hcase⟩ := release_inv h
    rcases hcase with ⟨hl, hs'⟩ | ⟨hl, hs'⟩ <;> subst hs'
    · have hpl := getElem?_set_of_get
        { p with freeList := p.freeList ++ [(bid, b.offset)] } hp
      have hbl := getElem?_set_of_get { b with loaned := false } hb
      refine ⟨by simp [List.length_set], by simp [List.length_set], ?_, ?_, ?_⟩
      · intro i c hc
        by_cases hib : bid = i
        · refine ⟨{ b with loaned := false }, by rw [hbl i, if_pos hib], ?_, ?_, ?_⟩ <;>
            (subst hib; rw [hb] at hc; injection hc with hc'; rw [← hc'])
          exact fun hd => hd
        · exact ⟨c, by rw [hbl i, if_neg hib]; exact hc, rfl, rfl, fun hd => hd⟩
      · intro q q' hq
        by_cases hpq : b.poolId = q
        · refine ⟨{ p with freeList := p.freeList ++ [(bid, b.offset)] },
            by rw [hpl q, if_pos hpq], ?_, ?_, ?_, ?_⟩ <;>
            (subst hpq; rw [hp] at hq; injection hq with hq'; rw [← hq'])
          exact fun hd => hd
        · exact ⟨q', by rw [hpl q, if_neg hpq]; exact hq, rfl, rfl, Nat.le_refl _,
            fun hd => hd⟩
      · intro q
        have : slotCount ⟨s.pools.set b.poolId
              { p with freeList := p.freeList ++ [(bid, b.offset)] },
            s.buffers.set bid { b with loaned := false }⟩ q = slotCount s q :=
          countP_set_same _ hb rfl
        rw [this]
    · have hbl := getElem?_set_of_get { b with loaned := false, destroyed := true } hb
      refine ⟨Nat.le_refl _, by simp [List.length_set], ?_, ?_, ?_⟩
      · intro i c hc
        by_cases hib : bid = i
        · refine ⟨{ b with loaned := false, destroyed := true },
            by rw [hbl i, if_pos hib], ?_, ?_, fun _ => rfl⟩ <;>
            (subst hib; rw [hb] at hc; injection hc with hc'; rw [← hc'])
        · exact ⟨c, by rw [hbl i, if_neg hib]; exact hc, rfl, rfl, fun hd => hd⟩
      · intro q q' hq
        exact ⟨q', hq, rfl, rfl, Nat.le_refl _, fun hd => hd⟩
      · intro q
        have : slotCount ⟨s.pools,
            s.buffers.set bid { b with loaned := false, destroyed := true }⟩ q =
              slotCount s q :=
          countP_set_same _ hb rfl
        rw [this]
  | destroyPool pid =>
    obtain ⟨p, hp, hl, hs'⟩ := destroyPool_inv h
    subst hs'
    have hpl := getElem?_set_of_get
      { p with live := false, freeList := [], shmDestroyed := true } hp
    have hball := destroyFreeBuffers_getElem? s.buffers p.freeList
    refine ⟨by simp [List.length_set], by simp [destroyFreeBuffers_length], ?_, ?_, ?_⟩
    · intro i c hc
      rw [hball i]
      by_cases hi : i ∈ p.freeList.map Prod.fst
      · rw [if_pos hi, hc]
        exact ⟨{ c with destroyed := true }, rfl, rfl, rfl, fun _ => rfl⟩
      · rw [if_neg hi]
        exact ⟨c, hc, rfl, rfl, fun hd => hd⟩
    · intro q q' hq
      by_cases hpq : pid = q
      · refine ⟨{ p with live := false, freeList := [], shmDestroyed := true },
          by rw [hpl q, if_pos hpq], ?_, ?_, ?_, fun _ => rfl⟩ <;>
          (subst hpq; rw [hp] at hq; injection hq with hq'; rw [← hq'])
      · exact ⟨q', by rw [hpl q, if_neg hpq]; exact hq, rfl, rfl, Nat.le_refl _,
          fun hd => hd⟩
    · intro q
      have : slotCount ⟨s.pools.set pid
            { p with live := false, freeList := [], shmDestroyed := true },
          destroyFreeBuffers s.buffers p.freeList⟩ q = slotCount s q :=
        destroyFreeBuffers_countP s.buffers p.freeList q
      rw [this]

theorem evolves_run {s s' : World} {ops : List Op} (h : run s ops = some s') :
    Evolves s s' := by
  induction ops generalizing s with
  | nil =>
    simp only [run, Option.some.injEq] at h
    subst h
    exact evolves_refl s
  | cons op ops ih =>
    simp only [run] at h
    cases hstep : step s op with
    | none => rw [hstep] at h; exact absurd h (by simp)
    | some s1 =>
      rw [hstep] at h
      exact evolves_trans (evolves_step hstep) (ih h)

/-- Forward computation: popping the most recently pushed free-list entry. -/
theorem get_buffer_pop {s : World} {pid : Nat} {p : Pool} {l : List (Nat × Nat)}
    {e : Nat × Nat} {b : Buffer} (hp : s.pools[pid]? = some p)
    (hl : p.live = true) (hfl : p.freeList = l ++ [e])
    (hb : s.buffers[e.1]? = some b) :
    get_buffer s pid =
      some (⟨s.pools.set pid { p with freeList := l },
             s.buffers.set e.1 { b with loaned := true }⟩, e.1, e.2) := by
  unfold get_buffer
  rw [hp]
  simp only [hl, if_true, hfl, List.getLast?_concat, hb, List.dropLast_concat]

/-- Forward computation: growing the pool by one buffer. -/
theorem get_buffer_grow {s : World} {pid : Nat} {p : Pool}
    (hp : s.pools[pid]? = some p) (hl : p.live = true) (hfl : p.freeList = []) :
    get_buffer s pid =
      some (⟨s.pools.set pid
               { p with mappingLen := p.mappingLen + buffer_size p.width p.height },
             s.buffers ++ [{ offset := p.mappingLen, poolId := pid,
                             loaned := true, destroyed := false }]⟩,
            s.buffers.length, p.mappingLen) := by
  unfold get_buffer
  rw [hp]
  simp only [hl, if_true, hfl, List.getLast?_nil]

/-- Forward computation: a release whose weak reference upgrades pushes the
buffer to the back of the free list. -/
theorem release_push {s : World} {bid : Nat} {b : Buffer} {p : Pool}
    (hb : s.buffers[bid]? = some b) (hlo : b.loaned = true)
    (hp : s.pools[b.poolId]? = some p) (hl : p.live = true) :
    release s bid =
      some ⟨s.pools.set b.poolId
              { p with freeList := p.freeList ++ [(bid, b.offset)] },
            s.buffers.set bid { b with loaned := false }⟩ := by
  unfold release
  rw [hb]
  simp only [hlo, if_true, hp, hl]

/-- Forward computation: a release whose weak reference fails to upgrade
destroys the remote buffer. -/
theorem release_dead {s : World} {bid : Nat} {b : Buffer} {p : Pool}
    (hb : s.buffers[bid]? = some b) (hlo : b.loaned = true)
    (hp : s.pools[b.poolId]? = some p) (hdead : p.live = false) :
    release s bid =
      some ⟨s.pools,
            s.buffers.set bid { b with loaned := false, destroyed := true }⟩ := by
  unfold release
  rw [hb]
  simp only [hlo, if_true, hp, hdead, Bool.false_eq_true, if_false]

/-- Forward computation: releasing a buffer whose loan flag is already
`false` trips the `assert!` and aborts. -/
theorem release_double {s : World} {bid : Nat} {b : Buffer}
    (hb : s.buffers[bid]? = some b) (hlo : b.loaned = false) :
    release s bid = none := by
  unfold release
  rw [hb]
  simp only [hlo, Bool.false_eq_true, if_false]

/-- Forward computation: dropping a live pool. -/
theorem destroyPool_eq {s : World} {pid : Nat} {p : Pool}
    (hp : s.pools[pid]? = some p) (hl : p.live = true) :
    destroyPool s pid =
      some ⟨s.pools.set pid
              { p with live := false, freeList := [], shmDestroyed := true },
            destroyFreeBuffers s.buffers p.freeList⟩ := by
  unfold destroyPool
  rw [hp]
  simp only [hl, if_true]

/-- `width * height * 4` is the true buffer size when the `u32` product
does not wrap. -/
theorem buffer_size_eq {w h : Nat} (hwh : w * h < 2 ^ 32) :
    buffer_size w h = w * h * 4 := by
  unfold buffer_size
  rw [Nat.mod_eq_of_lt hwh]

/-- Two distinct multiples of a positive `S` are at least `S` apart. -/
theorem multiples_gap {S k1 k2 o1 o2 : Nat} (h1 : o1 = S * k1) (h2 : o2 = S * k2)
    (hne : o1 ≠ o2) : o1 + S ≤ o2 ∨ o2 + S ≤ o1 := by
  subst h1
  subst h2
  rcases Nat.lt_trichotomy k1 k2 with hk | hk | hk
  · left
    calc S * k1 + S = S * (k1 + 1) := by rw [Nat.mul_succ]
      _ ≤ S * k2 := Nat.mul_le_mul_left S hk
  · exact absurd (by rw [hk]) hne
  · right
    calc S * k2 + S = S * (k2 + 1) := by rw [Nat.mul_succ]
      _ ≤ S * k1 := Nat.mul_le_mul_left S hk

/-- `get_buffer` never returns a buffer whose remote object was destroyed:
recycled buffers come from a free list (whose members are never destroyed)
and grown buffers are brand new. -/
theorem get_buffer_not_destroyed {s s' : World} {pid bid off : Nat} {b : Buffer}
    (hs : Inv s) (hb : s.buffers[bid]? = some b) (hdes : b.destroyed = true)
    (h : get_buffer s pid = some (s', bid, off)) : False := by
  obtain ⟨p, hp, hl, hcase | hcase⟩ := get_buffer_inv h
  · obtain ⟨l, b2, hfl, hb2, _⟩ := hcase
    obtain ⟨b0, hb0, _, _, _, hdes0⟩ :=
      hs.freeMem pid p hp (bid, off)
        (by rw [hfl]; exact List.mem_append_right _ (by simp))
    rw [hb] at hb0
    injection hb0 with hb0'
    rw [← hb0'] at hdes0
    exact absurd (hdes0.symm.trans hdes) (by simp)
  · obtain ⟨_, hbid, _, _⟩ := hcase
    have := (List.getElem?_eq_some_iff.mp hb).1
    omega

end Lemmas

section Claims

/-- C1: For every call to `get_buffer` on a live pool of a reachable world:
if the free list is non-empty, it pops one entry (from the back of the
`Vec`), sets that entry's slot loan flag to true, and returns that buffer
together with a pixel slice at the entry's offset, without changing the
segment length; otherwise it grows the segment by exactly one buffer size
`S = width * height * 4`, creates exactly one new slot whose offset equals
the old segment length, marks it loaned, creates one remote buffer bound
to that offset, and returns it. -/
theorem get_buffer_pops_or_grows {s : World} {pid : Nat} {p : Pool}
    (hreach : Reachable s) (hp : s.pools[pid]? = some p) (hl : p.live = true)
    (hwh : p.width * p.height < 2 ^ 32) :
    (∀ (l : List (Nat × Nat)) (e : Nat × Nat), p.freeList = l ++ [e] →
      ∃ b, s.buffers[e.1]? = some b ∧
        get_buffer s pid =
          some (⟨s.pools.set pid { p with freeList := l },
                 s.buffers.set e.1 { b with loaned := true }⟩, e.1, e.2)) ∧
    (p.freeList = [] →
      get_buffer s pid =
        some (⟨s.pools.set pid
                 { p with mappingLen := p.mappingLen + p.width * p.height * 4 },
               s.buffers ++ [{ offset := p.mappingLen, poolId := pid,
                               loaned := true, destroyed := false }]⟩,
              s.buffers.length, p.mappingLen)) := by
  constructor
  · intro l e hfl
    obtain ⟨b, hb, _, _, _, _⟩ := hreach.inv.freeMem pid p hp e
      (by rw [hfl]; exact List.mem_append_right _ (by simp))
    exact ⟨b, hb, get_buffer_pop hp hl hfl hb⟩
  · intro hfl
    have hg := get_buffer_grow hp hl hfl
    rw [buffer_size_eq hwh] at hg
    exact hg

/-- C2 (amended): provided the pool has nonzero pixel area (`0 < width *
height`, with the `u32` product not wrapping), the offsets of any two
distinct currently-loaned buffers of one pool in a reachable world are
distinct, and the byte ranges of length `width * height * 4` at those
offsets are disjoint.  The original claim, without the nonzero-area
proviso, is refuted by `loaned_offsets_collide_for_zero_area`. -/
theorem loaned_slices_disjoint {s : World} {pid i j : Nat} {p : Pool}
    {b c : Buffer} (hreach : Reachable s) (hp : s.pools[pid]? = some p)
    (hwh : p.width * p.height < 2 ^ 32) (hpos : 0 < p.width * p.height)
    (hb : s.buffers[i]? = some b) (hc : s.buffers[j]? = some c)
    (hbp : b.poolId = pid) (hcp : c.poolId = pid)
    (hbl : b.loaned = true) (hcl : c.loaned = true) (hij : i ≠ j) :
    b.offset ≠ c.offset ∧
      (b.offset + p.width * p.height * 4 ≤ c.offset ∨
       c.offset + p.width * p.height * 4 ≤ b.offset) := by
  have hS : buffer_size p.width p.height = p.width * p.height * 4 :=
    buffer_size_eq hwh
  have hSpos : 0 < buffer_size p.width p.height := by
    rw [hS]
    omega
  have hpb : s.pools[b.poolId]? = some p := by
    rw [hbp]
    exact hp
  have hpc : s.pools[c.poolId]? = some p := by
    rw [hcp]
    exact hp
  have hne : b.offset ≠ c.offset := fun heq =>
    hij (hreach.inv.offInj i j b c p hb hc (hbp.trans hcp.symm) hpb hSpos heq)
  obtain ⟨k1, hk1⟩ := hreach.inv.aligned i b p hb hpb
  obtain ⟨k2, hk2⟩ := hreach.inv.aligned j c p hc hpc
  refine ⟨hne, ?_⟩
  rw [← hS]
  exact multiples_gap hk1 hk2 hne

/-- C2 (counterexample): on a pool of geometry 0×0 (buffer size 0), two
`get_buffer` calls with no release in between produce two currently-loaned
buffers of the same pool with the same offset 0, so loaned offsets are not
pairwise distinct as the claim states. -/
theorem loaned_offsets_collide_for_zero_area :
    ∃ s : World, Reachable s ∧
      s.pools[0]? = some ⟨0, 0, 0, [], true, false⟩ ∧
      s.buffers[0]? = some ⟨0, 0, true, false⟩ ∧
      s.buffers[1]? = some ⟨0, 0, true, false⟩ := by
  refine ⟨⟨[⟨0, 0, 0, [], true, false⟩],
           [⟨0, 0, true, false⟩, ⟨0, 0, true, false⟩]⟩,
          ⟨[Op.newPool 0 0, Op.getBuffer 0, Op.getBuffer 0], by decide⟩,
          rfl, rfl, rfl⟩

/-- C3: delivering a release when the slot's loan flag is already false (a
double release) aborts via the failed `assert!` instead of silently
changing state; when the flag is true, the handler swaps it to false. -/
theorem release_swaps_flag_and_double_release_aborts {s : World} {bid : Nat}
    {b : Buffer} (hb : s.buffers[bid]? = some b) :
    (b.loaned = false → release s bid = none) ∧
    (∀ p : Pool, b.loaned = true → s.pools[b.poolId]? = some p →
      ∃ s', release s bid = some s' ∧
        ∃ b', s'.buffers[bid]? = some b' ∧ b'.loaned = false) := by
  constructor
  · intro hlo
    exact release_double hb hlo
  · intro p hlo hp
    by_cases hl : p.live = true
    · refine ⟨_, release_push hb hlo hp hl, { b with loaned := false }, ?_, rfl⟩
      dsimp only
      rw [getElem?_set_of_get _ hb bid, if_pos rfl]
    · have hdead : p.live = false := by
        revert hl
        cases p.live <;> simp
      refine ⟨_, release_dead hb hlo hp hdead,
        { b with loaned := false, destroyed := true }, ?_, rfl⟩
      dsimp only
      rw [getElem?_set_of_get _ hb bid, if_pos rfl]

/-- C4: for a loaned buffer whose owning pool has been destroyed (the weak
reference to the free list no longer upgrades), delivering its release
destroys the remote buffer object directly: the pools (and hence all free
lists) are unchanged, the buffer is marked destroyed, and no subsequent
`get_buffer` call on any pool in any later state ever returns it. -/
theorem release_after_pool_destroyed_destroys {s : World} {bid : Nat}
    {b : Buffer} {p : Pool} (hreach : Reachable s)
    (hb : s.buffers[bid]? = some b) (hlo : b.loaned = true)
    (hp : s.pools[b.poolId]? = some p) (hdead : p.live = false) :
    release s bid =
      some ⟨s.pools,
            s.buffers.set bid { b with loaned := false, destroyed := true }⟩ ∧
    ∀ (ops : List Op) (s' s'' : World) (pid off : Nat),
      run ⟨s.pools,
           s.buffers.set bid { b with loaned := false, destroyed := true }⟩
          ops = some s' →
      get_buffer s' pid ≠ some (s'', bid, off) := by
  have hrel := release_dead hb hlo hp hdead
  refine ⟨hrel, ?_⟩
  intro ops s' s'' pid off hrun hg
  have hinv1 : Inv ⟨s.pools,
      s.buffers.set bid { b with loaned := false, destroyed := true }⟩ :=
    inv_release hreach.inv hrel
  have hinv' : Inv s' := inv_run hinv1 hrun
  have hev := evolves_run hrun
  have hb1 : (⟨s.pools,
      s.buffers.set bid { b with loaned := false, destroyed := true }⟩ :
        World).buffers[bid]? =
      some { b with loaned := false, destroyed := true } := by
    dsimp only
    rw [getElem?_set_of_get _ hb bid, if_pos rfl]
  obtain ⟨b', hb', _, _, hdes'⟩ := hev.2.2.1 bid _ hb1
  exact get_buffer_not_destroyed hinv' hb' (hdes' rfl) hg

/-- C5: in every reachable world the segment length of a pool equals
`S = width * height * 4` times the number of slots ever created for it,
and along any further run the slot count never decreases and the segment
never shrinks. -/
theorem growth_invariant {s : World} {pid : Nat} {p : Pool}
    (hreach : Reachable s) (hp : s.pools[pid]? = some p)
    (hwh : p.width * p.height < 2 ^ 32) :
    p.mappingLen = p.width * p.height * 4 * slotCount s pid ∧
    ∀ (ops : List Op) (s' : World) (p' : Pool), run s ops = some s' →
      s'.pools[pid]? = some p' →
      slotCount s pid ≤ slotCount s' pid ∧ p.mappingLen ≤ p'.mappingLen := by
  constructor
  · have hlen := hreach.inv.lenEq pid p hp
    rw [buffer_size_eq hwh] at hlen
    exact hlen
  · intro ops s' p' hrun hp'
    have hev := evolves_run hrun
    obtain ⟨p2, hp2, _, _, hm2, _⟩ := hev.2.2.2.1 pid p hp
    rw [hp'] at hp2
    injection hp2 with hp2'
    exact ⟨hev.2.2.2.2 pid, hp2' ▸ hm2⟩

/-- C6: destroying a live pool destroys its remote pool object and every
remote buffer currently on the free list, but leaves every buffer
currently on loan completely untouched. -/
theorem destroy_pool_destroys_free_not_loaned {s : World} {pid : Nat}
    {p : Pool} (hreach : Reachable s) (hp : s.pools[pid]? = some p)
    (hl : p.live = true) :
    ∃ s', destroyPool s pid = some s' ∧
      (∃ p', s'.pools[pid]? = some p' ∧ p'.shmDestroyed = true) ∧
      (∀ e ∈ p.freeList, ∃ b', s'.buffers[e.1]? = some b' ∧
        b'.destroyed = true) ∧
      (∀ (i : Nat) (b : Buffer), s.buffers[i]? = some b → b.loaned = true →
        s'.buffers[i]? = some b) := by
  refine ⟨_, destroyPool_eq hp hl,
    ⟨{ p with live := false, freeList := [], shmDestroyed := true }, ?_, rfl⟩,
    ?_, ?_⟩
  · dsimp only
    rw [getElem?_set_of_get _ hp pid, if_pos rfl]
  · intro e he
    obtain ⟨b0, hb0, _, _, _, _⟩ := hreach.inv.freeMem pid p hp e he
    dsimp only
    rw [destroyFreeBuffers_getElem?, if_pos (List.mem_map.mpr ⟨e, he, rfl⟩), hb0]
    exact ⟨_, rfl, rfl⟩
  · intro i b hb hlo
    dsimp only
    rw [destroyFreeBuffers_getElem?]
    have hni : i ∉ p.freeList.map Prod.fst := by
      intro hi
      obtain ⟨e, he, hei⟩ := List.mem_map.mp hi
      obtain ⟨b0, hb0, _, _, hloan0, _⟩ := hreach.inv.freeMem pid p hp e he
      rw [hei, hb] at hb0
      injection hb0 with hb0'
      rw [← hb0'] at hloan0
      exact absurd (hloan0.symm.trans hlo) (by simp)
    rw [if_neg hni]
    exact hb

/-- C7 (amended): the free list is owned strongly by its pool and dies with
it: destroying a live pool leaves the free-list allocation dead
(`live = false`, contents dropped), and a buffer still on loan from that
pool that is released afterwards fails to upgrade its weak reference and
is destroyed directly instead of being recycled.  The original claim —
that the pool holds only a weak reference and the free list remains a
valid live structure after pool destruction — is refuted by
`free_list_dies_with_pool`. -/
theorem release_after_destroy_finds_dead_free_list {s : World} {pid : Nat}
    {p : Pool} (hreach : Reachable s) (hp : s.pools[pid]? = some p)
    (hl : p.live = true) :
    ∃ s', destroyPool s pid = some s' ∧
      (∃ p', s'.pools[pid]? = some p' ∧ p'.live = false ∧ p'.freeList = []) ∧
      (∀ (bid : Nat) (b : Buffer), s'.buffers[bid]? = some b →
        b.poolId = pid → b.loaned = true →
        release s' bid =
          some ⟨s'.pools,
                s'.buffers.set bid
                  { b with loaned := false, destroyed := true }⟩) := by
  refine ⟨_, destroyPool_eq hp hl,
    ⟨{ p with live := false, freeList := [], shmDestroyed := true },
     ?_, rfl, rfl⟩, ?_⟩
  · dsimp only
    rw [getElem?_set_of_get _ hp pid, if_pos rfl]
  · intro bid b hb hbp hlo
    have hpd : (⟨s.pools.set pid
        { p with live := false, freeList := [], shmDestroyed := true },
        destroyFreeBuffers s.buffers p.freeList⟩ : World).pools[b.poolId]? =
        some { p with live := false, freeList := [], shmDestroyed := true } := by
      rw [hbp]
      dsimp only
      rw [getElem?_set_of_get _ hp pid, if_pos rfl]
    exact release_dead hb hlo hpd rfl

/-- C7 (counterexample): after creating a pool, leasing a buffer and
destroying the pool, the free-list allocation is dead (`live = false`),
and delivering the in-flight release does not find a valid free list: the
buffer is destroyed and every pool's free list stays empty. -/
theorem free_list_dies_with_pool :
    ∃ s s' : World,
      run World.init [Op.newPool 4 4, Op.getBuffer 0, Op.destroyPool 0] =
        some s ∧
      s.pools[0]? = some ⟨4, 4, 64, [], false, true⟩ ∧
      release s 0 = some s' ∧
      s'.buffers[0]? = some ⟨0, 0, false, true⟩ ∧
      s'.pools[0]? = some ⟨4, 4, 64, [], false, true⟩ := by
  refine ⟨⟨[⟨4, 4, 64, [], false, true⟩], [⟨0, 0, true, false⟩]⟩,
          ⟨[⟨4, 4, 64, [], false, true⟩], [⟨0, 0, false, true⟩]⟩,
          by decide, rfl, by decide, rfl, rfl⟩

/-- C8: end-to-end scenario at geometry 4×4 (`S = 64` bytes).  The first
`get_buffer` grows the segment from 0 to 64 bytes and returns offset 0;
the second (with no intervening release) grows 64 to 128 and returns
offset 64; after releasing the offset-0 buffer, the third `get_buffer`
returns the recycled offset-0 buffer and the segment length remains
128. -/
theorem end_to_end_4x4 :
    ∃ s1 s2 s3 s4 s5 : World,
      step World.init (Op.newPool 4 4) = some s1 ∧
      (s1.pools[0]?).map Pool.mappingLen = some 0 ∧
      get_buffer s1 0 = some (s2, 0, 0) ∧
      (s2.pools[0]?).map Pool.mappingLen = some 64 ∧
      get_buffer s2 0 = some (s3, 1, 64) ∧
      (s3.pools[0]?).map Pool.mappingLen = some 128 ∧
      release s3 0 = some s4 ∧
      get_buffer s4 0 = some (s5, 0, 0) ∧
      (s5.pools[0]?).map Pool.mappingLen = some 128 := by
  refine ⟨⟨[⟨4, 4, 0, [], true, false⟩], []⟩,
          ⟨[⟨4, 4, 64, [], true, false⟩], [⟨0, 0, true, false⟩]⟩,
          ⟨[⟨4, 4, 128, [], true, false⟩],
           [⟨0, 0, true, false⟩, ⟨64, 0, true, false⟩]⟩,
          ⟨[⟨4, 4, 128, [(0, 0)], true, false⟩],
           [⟨0, 0, false, false⟩, ⟨64, 0, true, false⟩]⟩,
          ⟨[⟨4, 4, 128, [], true, false⟩],
           [⟨0, 0, true, false⟩, ⟨64, 0, true, false⟩]⟩,
          ?_, ?_, ?_, ?_, ?_, ?_, ?_, ?_, ?_⟩ <;> decide

/-- C9: in every reachable world, every offset held in a pool's free list
and the offset of every loaned slot of that pool satisfy
`offset + width * height * 4 ≤ segment length`, so the unchecked slice of
`width * height` 32-bit words built by `buffer_at_offset` lies inside the
mapping. -/
theorem offsets_within_mapping {s : World} (hreach : Reachable s) :
    ∀ (pid : Nat) (p : Pool), s.pools[pid]? = some p →
      p.width * p.height < 2 ^ 32 →
      (∀ e ∈ p.freeList, e.2 + p.width * p.height * 4 ≤ p.mappingLen) ∧
      (∀ (i : Nat) (b : Buffer), s.buffers[i]? = some b → b.poolId = pid →
        b.loaned = true → b.offset + p.width * p.height * 4 ≤ p.mappingLen) := by
  intro pid p hp hwh
  have hS := buffer_size_eq hwh
  constructor
  · intro e he
    obtain ⟨b0, hb0, hpool0, hoff0, _, _⟩ := hreach.inv.freeMem pid p hp e he
    have hbd := hreach.inv.inBounds e.1 b0 p hb0 (by rw [hpool0]; exact hp)
    rw [hS] at hbd
    rw [← hoff0]
    exact hbd
  · intro i b hb hbp _
    have hbd := hreach.inv.inBounds i b p hb (by rw [hbp]; exact hp)
    rw [hS] at hbd
    exact hbd

/-- C10: buffer recycling is LIFO: releases push onto the back of the
free-list vector and `get_buffer` pops from the back, so it returns the
buffer whose release arrived most recently among those not yet
re-leased. -/
theorem free_list_is_lifo {s : World} {pid : Nat} {p : Pool}
    (hreach : Reachable s) (hp : s.pools[pid]? = some p) (hl : p.live = true) :
    (∀ (bid : Nat) (b : Buffer), s.buffers[bid]? = some b → b.loaned = true →
      b.poolId = pid →
      ∃ s', release s bid = some s' ∧
        s'.pools[pid]? =
          some { p with freeList := p.freeList ++ [(bid, b.offset)] }) ∧
    (∀ (l : List (Nat × Nat)) (e : Nat × Nat), p.freeList = l ++ [e] →
      ∃ s', get_buffer s pid = some (s', e.1, e.2) ∧
        s'.pools[pid]? = some { p with freeList := l }) := by
  constructor
  · intro bid b hb hlo hbp
    have hpb : s.pools[b.poolId]? = some p := by
      rw [hbp]
      exact hp
    refine ⟨_, release_push hb hlo hpb hl, ?_⟩
    dsimp only
    rw [getElem?_set_of_get _ hpb pid, if_pos hbp]
  · intro l e hfl
    obtain ⟨b, hb, _, _, _, _⟩ := hreach.inv.freeMem pid p hp e
      (by rw [hfl]; exact List.mem_append_right _ (by simp))
    refine ⟨_, get_buffer_pop hp hl hfl hb, ?_⟩
    dsimp only
    rw [getElem?_set_of_get _ hp pid, if_pos rfl]

section Witnesses

/-- Witness for C1 at a reachable world with one free-list entry. -/
theorem get_buffer_pops_or_grows_witness :
    (∀ (l : List (Nat × Nat)) (e : Nat × Nat),
      ([(0, 0)] : List (Nat × Nat)) = l ++ [e] →
      ∃ b, ([⟨0, 0, false, false⟩] : List Buffer)[e.1]? = some b ∧
        get_buffer ⟨[⟨4, 4, 64, [(0, 0)], true, false⟩],
                    [⟨0, 0, false, false⟩]⟩ 0 =
          some (⟨[(⟨4, 4, 64, [(0, 0)], true, false⟩ : Pool)].set 0
                   ⟨4, 4, 64, l, true, false⟩,
                 [(⟨0, 0, false, false⟩ : Buffer)].set e.1
                   { b with loaned := true }⟩, e.1, e.2)) ∧
    (([(0, 0)] : List (Nat × Nat)) = [] →
      get_buffer ⟨[⟨4, 4, 64, [(0, 0)], true, false⟩],
                  [⟨0, 0, false, false⟩]⟩ 0 =
        some (⟨[⟨4, 4, 64 + 4 * 4 * 4, [(0, 0)], true, false⟩],
               [⟨0, 0, false, false⟩, ⟨64, 0, true, false⟩]⟩, 1, 64)) :=
  @get_buffer_pops_or_grows
    ⟨[⟨4, 4, 64, [(0, 0)], true, false⟩], [⟨0, 0, false, false⟩]⟩ 0
    ⟨4, 4, 64, [(0, 0)], true, false⟩
    ⟨[Op.newPool 4 4, Op.getBuffer 0, Op.releaseBuffer 0], by decide⟩
    rfl rfl (by decide)

/-- Witness for C2 (amended) at a reachable world with two loaned
buffers. -/
theorem loaned_slices_disjoint_witness :
    (0 : Nat) ≠ 64 ∧ (0 + 4 * 4 * 4 ≤ 64 ∨ 64 + 4 * 4 * 4 ≤ (0 : Nat)) :=
  @loaned_slices_disjoint
    ⟨[⟨4, 4, 128, [], true, false⟩],
     [⟨0, 0, true, false⟩, ⟨64, 0, true, false⟩]⟩ 0 0 1
    ⟨4, 4, 128, [], true, false⟩ ⟨0, 0, true, false⟩ ⟨64, 0, true, false⟩
    ⟨[Op.newPool 4 4, Op.getBuffer 0, Op.getBuffer 0], by decide⟩
    rfl (by decide) (by decide) rfl rfl rfl rfl rfl rfl (by decide)

/-- Witness for C3 at a world with one loaned buffer. -/
theorem release_swaps_flag_and_double_release_aborts_witness :
    (true = false →
      release ⟨[⟨4, 4, 128, [], true, false⟩],
               [⟨0, 0, true, false⟩, ⟨64, 0, true, false⟩]⟩ 0 = none) ∧
    (∀ p : Pool, true = true →
      ([⟨4, 4, 128, [], true, false⟩] : List Pool)[0]? = some p →
      ∃ s', release ⟨[⟨4, 4, 128, [], true, false⟩],
                     [⟨0, 0, true, false⟩, ⟨64, 0, true, false⟩]⟩ 0 = some s' ∧
        ∃ b', s'.buffers[0]? = some b' ∧ b'.loaned = false) :=
  @release_swaps_flag_and_double_release_aborts
    ⟨[⟨4, 4, 128, [], true, false⟩],
     [⟨0, 0, true, false⟩, ⟨64, 0, true, false⟩]⟩ 0 ⟨0, 0, true, false⟩ rfl

/-- Witness for C4: leasing from a pool, destroying the pool, then
releasing. -/
theorem release_after_pool_destroyed_destroys_witness :
    release ⟨[⟨4, 4, 64, [], false, true⟩], [⟨0, 0, true, false⟩]⟩ 0 =
      some ⟨[⟨4, 4, 64, [], false, true⟩], [⟨0, 0, false, true⟩]⟩ ∧
    ∀ (ops : List Op) (s' s'' : World) (pid off : Nat),
      run ⟨[⟨4, 4, 64, [], false, true⟩], [⟨0, 0, false, true⟩]⟩ ops =
        some s' →
      get_buffer s' pid ≠ some (s'', 0, off) :=
  @release_after_pool_destroyed_destroys
    ⟨[⟨4, 4, 64, [], false, true⟩], [⟨0, 0, true, false⟩]⟩ 0
    ⟨0, 0, true, false⟩ ⟨4, 4, 64, [], false, true⟩
    ⟨[Op.newPool 4 4, Op.getBuffer 0, Op.destroyPool 0], by decide⟩
    rfl rfl rfl rfl

/-- Witness for C5 at a reachable world with two slots. -/
theorem growth_invariant_witness :
    (128 : Nat) =
      4 * 4 * 4 * slotCount ⟨[⟨4, 4, 128, [], true, false⟩],
        [⟨0, 0, true, false⟩, ⟨64, 0, true, false⟩]⟩ 0 ∧
    ∀ (ops : List Op) (s' : World) (p' : Pool),
      run ⟨[⟨4, 4, 128, [], true, false⟩],
           [⟨0, 0, true, false⟩, ⟨64, 0, true, false⟩]⟩ ops = some s' →
      s'.pools[0]? = some p' →
      slotCount ⟨[⟨4, 4, 128, [], true, false⟩],
        [⟨0, 0, true, false⟩, ⟨64, 0, true, false⟩]⟩ 0 ≤ slotCount s' 0 ∧
        128 ≤ p'.mappingLen :=
  @growth_invariant
    ⟨[⟨4, 4, 128, [], true, false⟩],
     [⟨0, 0, true, false⟩, ⟨64, 0, true, false⟩]⟩ 0
    ⟨4, 4, 128, [], true, false⟩
    ⟨[Op.newPool 4 4, Op.getBuffer 0, Op.getBuffer 0], by decide⟩
    rfl (by decide)

/-- Witness for C6: destroying a pool with one free and zero loaned
buffers. -/
theorem destroy_pool_destroys_free_not_loaned_witness :
    ∃ s', destroyPool ⟨[⟨4, 4, 64, [(0, 0)], true, false⟩],
                       [⟨0, 0, false, false⟩]⟩ 0 = some s' ∧
      (∃ p', s'.pools[0]? = some p' ∧ p'.shmDestroyed = true) ∧
      (∀ e ∈ ([(0, 0)] : List (Nat × Nat)),
        ∃ b', s'.buffers[e.1]? = some b' ∧ b'.destroyed = true) ∧
      (∀ (i : Nat) (b : Buffer),
        ([⟨0, 0, false, false⟩] : List Buffer)[i]? = some b →
        b.loaned = true → s'.buffers[i]? = some b) :=
  @destroy_pool_destroys_free_not_loaned
    ⟨[⟨4, 4, 64, [(0, 0)], true, false⟩], [⟨0, 0, false, false⟩]⟩ 0
    ⟨4, 4, 64, [(0, 0)], true, false⟩
    ⟨[Op.newPool 4 4, Op.getBuffer 0, Op.releaseBuffer 0], by decide⟩
    rfl rfl

/-- Witness for C7 (amended). -/
theorem release_after_destroy_finds_dead_free_list_witness :
    ∃ s', destroyPool ⟨[⟨4, 4, 64, [(0, 0)], true, false⟩],
                       [⟨0, 0, false, false⟩]⟩ 0 = some s' ∧
      (∃ p', s'.pools[0]? = some p' ∧ p'.live = false ∧ p'.freeList = []) ∧
      (∀ (bid : Nat) (b : Buffer), s'.buffers[bid]? = some b →
        b.poolId = 0 → b.loaned = true →
        release s' bid =
          some ⟨s'.pools,
                s'.buffers.set bid
                  { b with loaned := false, destroyed := true }⟩) :=
  @release_after_destroy_finds_dead_free_list
    ⟨[⟨4, 4, 64, [(0, 0)], true, false⟩], [⟨0, 0, false, false⟩]⟩ 0
    ⟨4, 4, 64, [(0, 0)], true, false⟩
    ⟨[Op.newPool 4 4, Op.getBuffer 0, Op.releaseBuffer 0], by decide⟩
    rfl rfl

/-- Witness for C9 at a reachable world with two loaned slots. -/
theorem offsets_within_mapping_witness :
    (∀ e ∈ ([] : List (Nat × Nat)), e.2 + 4 * 4 * 4 ≤ 128) ∧
    (∀ (i : Nat) (b : Buffer),
      ([⟨0, 0, true, false⟩, ⟨64, 0, true, false⟩] : List Buffer)[i]? =
        some b →
      b.poolId = 0 → b.loaned = true → b.offset + 4 * 4 * 4 ≤ 128) :=
  @offsets_within_mapping
    ⟨[⟨4, 4, 128, [], true, false⟩],
     [⟨0, 0, true, false⟩, ⟨64, 0, true, false⟩]⟩
    ⟨[Op.newPool 4 4, Op.getBuffer 0, Op.getBuffer 0], by decide⟩
    0 ⟨4, 4, 128, [], true, false⟩ rfl (by decide)

/-- Witness for C10 at a reachable world with one free-list entry. -/
theorem free_list_is_lifo_witness :
    (∀ (bid : Nat) (b : Buffer),
      ([⟨0, 0, false, false⟩] : List Buffer)[bid]? = some b →
      b.loaned = true → b.poolId = 0 →
      ∃ s', release ⟨[⟨4, 4, 64, [(0, 0)], true, false⟩],
                     [⟨0, 0, false, false⟩]⟩ bid = some s' ∧
        s'.pools[0]? =
          some ⟨4, 4, 64, [(0, 0)] ++ [(bid, b.offset)], true, false⟩) ∧
    (∀ (l : List (Nat × Nat)) (e : Nat × Nat),
      ([(0, 0)] : List (Nat × Nat)) = l ++ [e] →
      ∃ s', get_buffer ⟨[⟨4, 4, 64, [(0, 0)], true, false⟩],
                        [⟨0, 0, false, false⟩]⟩ 0 = some (s', e.1, e.2) ∧
        s'.pools[0]? = some ⟨4, 4, 64, l, true, false⟩) :=
  @free_list_is_lifo
    ⟨[⟨4, 4, 64, [(0, 0)], true, false⟩], [⟨0, 0, false, false⟩]⟩ 0
    ⟨4, 4, 64, [(0, 0)], true, false⟩
    ⟨[Op.newPool 4 4, Op.getBuffer 0, Op.releaseBuffer 0], by decide⟩
    rfl rfl

end Witnesses

end Claims

end WaylandThing
